import Mathlib

/-!
Verification development for the flint-core test-execution engine.

The definitions below are a shallow embedding of the Rust sources:
  * `src/test_spec.rs` — the test-specification data model and validation,
  * `src/spatial.rs`   — grid placement of tests,
  * `src/timeline.rs`  — the merged tick-indexed schedule,
  * `src/runner.rs`    — the tick-driven runner and block matching,
  * `src/results.rs`   — the result data model.

Modelling conventions:
  * Rust `u32` / `usize` / `u8` are `Nat`; `i32` is `Int` with exact
    arithmetic (the engine's coordinates and sizes are far below the `i32`
    bounds, so wrap-around is not modelled).
  * `FxHashMap<String, String>` block properties are association lists; key
    uniqueness, which the hash map enforces by construction, is the
    predicate `Block.wf`.
  * `HashMap<u32, Vec<..>>` in the timeline aggregate is an association
    list keyed by tick whose buckets grow by appending, exactly like
    `entry(tick).or_default().push(..)`; the map's own key order is never
    observed by the code (only `get` and an order-independent `min`), so
    the association-list order is immaterial.
  * `HashSet<u32>` breakpoints are the list of inserted elements; only
    membership and minima are consumed, where duplicates are harmless.
  * The adapter traits (`FlintAdapter`/`FlintWorld`/`FlintPlayer`) are a
    record of state-transformers over an abstract state `S` that carries
    both the world and the (at most one) player; the runner's lazy
    `Option<Box<dyn FlintPlayer>>` is the `Bool` flag threaded beside `S`.
  * Wall-clock execution time (`Instant`) is not modelled;
    `execution_time_ms` is always 0.
  * The runner additionally records a ghost trace of dispatched actions and
    world-tick advances; the trace is pure observation and does not feed
    back into control flow.
  * `f64::sqrt().ceil()` on a nonnegative integer input is modelled as the
    exact integer ceiling square root `ceil_sqrt` (IEEE sqrt is correctly
    rounded, so the two agree on every realistic test count).
  * Error message strings are abridged: the surrounding quotes and the
    interpolated coordinates of the Rust `format!` calls are not
    reproduced verbatim; no theorem depends on message text.
-/

/-! ## Basic string helpers (Rust `str::starts_with`, byte slicing) -/

/-- Character-list core of `str::starts_with`. -/
def list_starts_with : List Char → List Char → Bool
  | [], _ => true
  | _ :: _, [] => false
  | c :: cs, d :: ds => c == d && list_starts_with cs ds

/-- Rust `s.starts_with(p)`. -/
def str_starts_with (s p : String) : Bool :=
  list_starts_with p.toList s.toList

/-! ## Data model (`src/test_spec.rs`) -/

/-- Rust `[i32; 3]` positions. -/
abbrev Pos := Int × Int × Int

/-- Block: identifier plus string-keyed property map (`FxHashMap` as an
association list). -/
structure Block where
  id : String
  properties : List (String × String)

/-- Key uniqueness of the property map — an invariant every value of Rust
type `FxHashMap<String, String>` has by construction. -/
def Block.wf (b : Block) : Prop :=
  (b.properties.map Prod.fst).Nodup

/-- Rust `Block::to_command` (property iteration order of the hash map is
unspecified; the model uses list order). -/
def Block.to_command (b : Block) : String :=
  if b.properties.isEmpty then b.id
  else
    b.id ++ "[" ++ String.intercalate "," (b.properties.map (fun kv => kv.1 ++ "=" ++ kv.2)) ++ "]"

/-- Player inventory slots. -/
inductive PlayerSlot where
  | Hotbar1 | Hotbar2 | Hotbar3 | Hotbar4 | Hotbar5
  | Hotbar6 | Hotbar7 | Hotbar8 | Hotbar9
  | OffHand
  | Helmet | Chestplate | Leggings | Boots
deriving DecidableEq

/-- An item that can be held or placed in a slot. -/
structure Item where
  id : String
  count : Nat
deriving DecidableEq

/-- Rust `Item::empty`: air with count 0. -/
def Item.empty : Item :=
  { id := "minecraft:air", count := 0 }

/-- Rust `Item::new`: count-1 item, except ids starting with "empty" give
the empty item. -/
def Item.new (id : String) : Item :=
  if str_starts_with id "empty" then Item.empty
  else { id := id, count := 1 }

/-- Rust `Item::with_count`. -/
def Item.with_count (id : String) (count : Nat) : Item :=
  { id := id, count := count }

/-- Block faces for `use_item_on`. -/
inductive BlockFace where
  | Top | Bottom | North | South | East | West
deriving DecidableEq

/-- Rust `TickSpec`: one tick or an ordered list of ticks. -/
inductive TickSpec where
  | Single (t : Nat)
  | Multiple (ts : List Nat)
deriving DecidableEq

/-- Rust `TickSpec::to_vec`. -/
def TickSpec.to_vec : TickSpec → List Nat
  | .Single t => [t]
  | .Multiple ts => ts

/-- One placement of `PlaceEach`. -/
structure BlockPlacement where
  pos : Pos
  block : Block

/-- One check of an `Assert` action. -/
structure BlockCheck where
  pos : Pos
  is_ : Block

/-- Rust `ActionType` (field `with` of `Fill` is `fill_with`,
field `is` of `BlockCheck` is `is_`: both are Lean keywords). -/
inductive ActionType where
  | Place (pos : Pos) (block : Block)
  | PlaceEach (blocks : List BlockPlacement)
  | Fill (region : Pos × Pos) (fill_with : Block)
  | Remove (pos : Pos)
  | Assert (checks : List BlockCheck)
  | UseItemOn (pos : Pos) (face : BlockFace) (item : Option String)
  | SetSlot (slot : PlayerSlot) (item : Option String) (count : Nat)
  | SelectHotbar (slot : Nat)

/-- Rust `TimelineEntry` (field `at` is `at_`: `at` is a Lean keyword). -/
structure TimelineEntry where
  at_ : TickSpec
  action_type : ActionType

/-- Cleanup region of the setup section. -/
structure CleanupSpec where
  region : Pos × Pos

/-- Initial player configuration (`inventory` is a hash map whose iteration
order is unspecified; the model uses list order). -/
structure PlayerConfig where
  inventory : List (PlayerSlot × Item)
  selected_hotbar : Nat

/-- Setup section of a test spec. -/
structure SetupSpec where
  cleanup : Option CleanupSpec
  player : Option PlayerConfig

/-- Rust `TestSpec`. -/
structure TestSpec where
  flint_version : Option String
  name : String
  description : Option String
  tags : List String
  dependencies : List String
  setup : Option SetupSpec
  timeline : List TimelineEntry
  minecraft_ids : List String
  breakpoints : List Nat

/-- List maximum with default 0 — Rust `iter().max().unwrap_or(0)` over
`u32` values. -/
def list_max (l : List Nat) : Nat :=
  l.foldl Nat.max 0

/-- Rust `TestSpec::max_tick`. -/
def TestSpec.max_tick (s : TestSpec) : Nat :=
  list_max (s.timeline.flatMap (fun e => e.at_.to_vec))

/-! ## Block matching (`block_matches` in `src/runner.rs`) -/

/-- Strip a leading "minecraft:" (10 characters, as the Rust byte index
`[10..]` on the ASCII prefix). -/
def strip_minecraft (s : String) : String :=
  if str_starts_with s "minecraft:" then s.drop 10 else s

/-- First-match association-list lookup — `FxHashMap::get` (keys are unique
in any real map, so which match is taken is immaterial there). -/
def lookup_prop : List (String × String) → String → Option String
  | [], _ => none
  | kv :: rest, k => if kv.1 = k then some kv.2 else lookup_prop rest k

/-- Rust `block_matches`: id comparison (exact, else with the
"minecraft:" prefix stripped from each side that carries it), then every
expected property must be present in the actual block with an equal
value. -/
def block_matches (actual expected : Block) : Bool :=
  (if actual.id = expected.id then true
   else decide (strip_minecraft actual.id = strip_minecraft expected.id)) &&
  expected.properties.all (fun kv =>
    match lookup_prop actual.properties kv.1 with
    | some v => decide (v = kv.2)
    | none => false)

/-- Declarative reading of `block_matches`, shared by the claims below. -/
theorem block_matches_spec_lemma (a e : Block) :
    block_matches a e = true ↔
      (strip_minecraft a.id = strip_minecraft e.id ∧
       ∀ kv ∈ e.properties, lookup_prop a.properties kv.1 = some kv.2) := by
  unfold block_matches
  rw [Bool.and_eq_true, List.all_eq_true]
  have hid : ((if a.id = e.id then true
      else decide (strip_minecraft a.id = strip_minecraft e.id)) = true)
      ↔ strip_minecraft a.id = strip_minecraft e.id := by
    by_cases h : a.id = e.id
    · simp [h]
    · simp [h]
  have hkv : ∀ kv : String × String,
      ((match lookup_prop a.properties kv.1 with
        | some v => decide (v = kv.2)
        | none => false) = true) ↔
        lookup_prop a.properties kv.1 = some kv.2 := by
    intro kv
    cases hl : lookup_prop a.properties kv.1 with
    | none => simp
    | some v => simp
  rw [hid]
  constructor
  · rintro ⟨h1, h2⟩
    exact ⟨h1, fun kv hm => (hkv kv).mp (h2 kv hm)⟩
  · rintro ⟨h1, h2⟩
    exact ⟨h1, fun kv hm => (hkv kv).mpr (h2 kv hm)⟩

/-- On an association list with pairwise distinct keys, looking a member
pair's key up returns its value. -/
theorem lookup_prop_mem (props : List (String × String))
    (hnd : (props.map Prod.fst).Nodup) :
    ∀ kv ∈ props, lookup_prop props kv.1 = some kv.2 := by
  induction props with
  | nil => intro kv h; cases h
  | cons hd tl ih =>
    intro kv hkv
    rw [List.map_cons, List.nodup_cons] at hnd
    rw [List.mem_cons] at hkv
    rcases hkv with h | h
    · subst h; simp [lookup_prop]
    · have hne : hd.1 ≠ kv.1 := by
        intro he
        exact hnd.1 (he ▸ (List.mem_map.mpr ⟨kv, h, rfl⟩))
      simp only [lookup_prop, if_neg hne]
      exact ih hnd.2 kv h

/-- C2: `block_matches(actual, expected)` is true iff the two identifiers
are equal once the "minecraft:" prefix is stripped from whichever side
carries it, and every property named by the expected block is present in
the actual block with an equal value (extra actual properties ignored; an
expected key absent from the actual block refutes the match). -/
theorem block_matches_iff (actual expected : Block) :
    block_matches actual expected = true ↔
      (strip_minecraft actual.id = strip_minecraft expected.id ∧
       ∀ kv ∈ expected.properties,
         lookup_prop actual.properties kv.1 = some kv.2) :=
  block_matches_spec_lemma actual expected

/-- C9: block matching is reflexive — any block (with the hash map's
key-uniqueness invariant) matches itself, so an assertion expecting
exactly the block the world returns always passes. -/
theorem block_matches_refl (b : Block) (hwf : b.wf) :
    block_matches b b = true := by
  rw [block_matches_spec_lemma]
  exact ⟨rfl, lookup_prop_mem b.properties hwf⟩

/-- Witness for C9 at a concrete block. -/
theorem block_matches_refl_witness :
    Block.wf { id := "minecraft:lever",
               properties := [( "powered", "false"), ( "face", "floor")] } ∧
    block_matches
      { id := "minecraft:lever",
        properties := [( "powered", "false"), ( "face", "floor")] }
      { id := "minecraft:lever",
        properties := [( "powered", "false"), ( "face", "floor")] } = true :=
  ⟨by simp [Block.wf],
   block_matches_refl _ (by simp [Block.wf])⟩

/-! ## Spatial layout (`src/spatial.rs`) -/

/-- Bounded ascending search for the least `k ≥ k₀` with `n ≤ k * k`. -/
def ceil_sqrt_go (n : Nat) : Nat → Nat → Nat
  | k, 0 => k
  | k, fuel + 1 => if n ≤ k * k then k else ceil_sqrt_go n (k + 1) fuel

/-- Integer ceiling square root: the exact value of the Rust
`(total as f64).sqrt().ceil()` computation. -/
def ceil_sqrt (n : Nat) : Nat :=
  ceil_sqrt_go n 0 n

theorem ceil_sqrt_go_spec (n : Nat) :
    ∀ fuel k, n ≤ (k + fuel) * (k + fuel) →
      n ≤ ceil_sqrt_go n k fuel * ceil_sqrt_go n k fuel ∧
      k ≤ ceil_sqrt_go n k fuel ∧
      ∀ j, k ≤ j → n ≤ j * j → ceil_sqrt_go n k fuel ≤ j := by
  intro fuel
  induction fuel with
  | zero =>
    intro k hk
    simp only [Nat.add_zero] at hk
    exact ⟨hk, Nat.le_refl k, fun j hkj _ => hkj⟩
  | succ fuel ih =>
    intro k hk
    by_cases h : n ≤ k * k
    · simp only [ceil_sqrt_go, if_pos h]
      exact ⟨h, Nat.le_refl k, fun j hkj _ => hkj⟩
    · simp only [ceil_sqrt_go, if_neg h]
      have hk' : n ≤ (k + 1 + fuel) * (k + 1 + fuel) := by
        have : k + 1 + fuel = k + (fuel + 1) := by omega
        rw [this]; exact hk
      obtain ⟨h1, h2, h3⟩ := ih (k + 1) hk'
      refine ⟨h1, Nat.le_trans (Nat.le_succ k) h2, fun j hkj hj => ?_⟩
      have : k + 1 ≤ j := by
        rcases Nat.lt_or_ge k j with hlt | hge
        · omega
        · exfalso
          exact h (Nat.le_trans hj (Nat.mul_le_mul hge hge))
      exact h3 j this hj

theorem ceil_sqrt_le_sq (n : Nat) : n ≤ ceil_sqrt n * ceil_sqrt n := by
  have h : n ≤ (0 + n) * (0 + n) := by
    simp only [Nat.zero_add]
    cases n with
    | zero => exact Nat.le_refl 0
    | succ m => exact Nat.le_mul_of_pos_left _ (Nat.succ_pos m)
  exact (ceil_sqrt_go_spec n n 0 h).1

theorem ceil_sqrt_min (n j : Nat) (h : n ≤ j * j) : ceil_sqrt n ≤ j := by
  have hh : n ≤ (0 + n) * (0 + n) := by
    simp only [Nat.zero_add]
    cases n with
    | zero => exact Nat.le_refl 0
    | succ m => exact Nat.le_mul_of_pos_left _ (Nat.succ_pos m)
  exact (ceil_sqrt_go_spec n n 0 hh).2.2 j (Nat.zero_le j) h

/-- The `base_offset` computation of Rust `calculate_test_offset`:
centre an odd-sided grid on the origin, skew an even-sided one to the
positive quadrant. -/
def calc_base_offset (grid_size : Nat) (cell_size : Int) : Int :=
  if grid_size % 2 == 1 then
    -((grid_size / 2 : Nat) : Int) * cell_size
  else
    -(((grid_size / 2 : Nat) : Int) - 1) * cell_size

/-- Rust `calculate_test_offset`: place test `test_index` of
`total_tests` on a `ceil(sqrt(total))`-sided grid of cells of side
`cell_size`, at grid cell `(index mod g, index div g)`.  `i32`
arithmetic is modelled exactly over `Int`. -/
def calculate_test_offset (test_index total_tests : Nat) (cell_size : Int) : Pos :=
  (calc_base_offset (ceil_sqrt total_tests) cell_size +
     ((test_index % ceil_sqrt total_tests : Nat) : Int) * cell_size,
   0,
   calc_base_offset (ceil_sqrt total_tests) cell_size +
     ((test_index / ceil_sqrt total_tests : Nat) : Int) * cell_size)

/-- Rust `calculate_test_offset_default` (cell size 16). -/
def calculate_test_offset_default (test_index total_tests : Nat) : Pos :=
  calculate_test_offset test_index total_tests 16

/-- Rust `calculate_grid_dimensions`. -/
def calculate_grid_dimensions (total_tests : Nat) : Nat × Nat :=
  (ceil_sqrt total_tests, ceil_sqrt total_tests)

/-- Rust `apply_offset`. -/
def apply_offset (pos offset : Pos) : Pos :=
  (pos.1 + offset.1, pos.2.1 + offset.2.1, pos.2.2 + offset.2.2)

/-- C3 counterexample: with cell size 0 (the claim quantifies over every
cell size) the offsets of the two distinct indices 0 and 1 under
`total = 2` coincide, refuting pairwise distinctness as stated. -/
theorem calculate_test_offset_cell_zero_collision :
    calculate_test_offset 0 2 0 = calculate_test_offset 1 2 0 := by decide

/-- C3 (amended: cell size nonzero): for `total ≥ 1` and `cell_size ≠ 0`,
offsets of distinct indices below `total` are pairwise distinct, and the
grid side returned (twice) by `calculate_grid_dimensions` is the integer
ceiling square root of `total` — the least `g` with `total ≤ g * g`. -/
theorem calculate_test_offset_injective_grid (total : Nat) (c : Int)
    (htotal : 1 ≤ total) (hc : c ≠ 0) :
    (∀ i j : Nat, i < total → j < total → i ≠ j →
        calculate_test_offset i total c ≠ calculate_test_offset j total c) ∧
    calculate_grid_dimensions total = (ceil_sqrt total, ceil_sqrt total) ∧
    total ≤ ceil_sqrt total * ceil_sqrt total ∧
    (∀ k : Nat, total ≤ k * k → ceil_sqrt total ≤ k) := by
  refine ⟨?_, rfl, ceil_sqrt_le_sq total, fun k hk => ceil_sqrt_min total k hk⟩
  intro i j _ _ hij heq
  apply hij
  unfold calculate_test_offset at heq
  simp only [Prod.mk.injEq] at heq
  obtain ⟨hx, _, hz⟩ := heq
  have hx' := add_left_cancel hx
  have hz' := add_left_cancel hz
  have hxn : i % ceil_sqrt total = j % ceil_sqrt total := by
    have := mul_right_cancel₀ hc hx'
    exact_mod_cast this
  have hzn : i / ceil_sqrt total = j / ceil_sqrt total := by
    have := mul_right_cancel₀ hc hz'
    exact_mod_cast this
  have hi := Nat.div_add_mod i (ceil_sqrt total)
  have hj := Nat.div_add_mod j (ceil_sqrt total)
  rw [hxn, hzn] at hi
  omega

/-- Witness for C3's amended theorem at `total = 4`, `cell_size = 16`. -/
theorem calculate_test_offset_injective_grid_witness :
    1 ≤ 4 ∧ (16 : Int) ≠ 0 ∧
    calculate_test_offset 0 4 16 ≠ calculate_test_offset 1 4 16 :=
  ⟨by decide, by decide,
   (calculate_test_offset_injective_grid 4 16 (by decide) (by decide)).1
     0 1 (by decide) (by decide) (by decide)⟩

/-! ## Timeline aggregate (`src/timeline.rs`) -/

/-- One scheduled dispatch: `(test_idx, timeline_entry, value_idx)` as in
the Rust bucket vectors (entries are stored by value in the model; Rust
stores a shared reference to the same data). -/
abbrev SchedEntry := Nat × TimelineEntry × Nat

/-- Association-list model of `HashMap<u32, Vec<A>>` restricted to the two
operations the code performs: `entry(k).or_default().push(a)` and
`get(&k)`. -/
def hm_push {α : Type} : List (Nat × List α) → Nat → α → List (Nat × List α)
  | [], k, a => [(k, [a])]
  | (k', l) :: rest, k, a =>
      if k' = k then (k', l ++ [a]) :: rest else (k', l) :: hm_push rest k a

/-- `HashMap::get`. -/
def hm_get {α : Type} : List (Nat × List α) → Nat → Option (List α)
  | [], _ => none
  | (k', l) :: rest, k => if k' = k then some l else hm_get rest k

/-- The merged timeline of one or more tests. -/
structure TimelineAggregate where
  timeline : List (Nat × List SchedEntry)
  max_tick : Nat
  breakpoints : List Nat

/-- Rust `TimelineAggregate::from_tests`: the imperative double/triple
loop — per test update `max_tick`, append its breakpoints, and push one
bucket entry per named tick of each timeline entry, tagged with the tick's
position in the entry's own tick list. -/
def TimelineAggregate.from_tests (tests : List (TestSpec × Pos)) : TimelineAggregate :=
  tests.enum.foldl
    (fun acc p =>
      { timeline :=
          p.2.1.timeline.foldl
            (fun tl entry =>
              entry.at_.to_vec.enum.foldl
                (fun tl vt => hm_push tl vt.2 (p.1, entry, vt.1))
                tl)
            acc.timeline,
        max_tick :=
          if p.2.1.max_tick > acc.max_tick then p.2.1.max_tick else acc.max_tick,
        breakpoints := acc.breakpoints ++ p.2.1.breakpoints })
    { timeline := [], max_tick := 0, breakpoints := [] }

/-- Rust `TimelineAggregate::unique_tick_count`. -/
def TimelineAggregate.unique_tick_count (agg : TimelineAggregate) : Nat :=
  agg.timeline.length

/-- Rust `Iterator::min`: smallest element, `None` when empty. -/
def list_min : List Nat → Option Nat
  | [] => none
  | x :: xs =>
    match list_min xs with
    | none => some x
    | some m => some (Nat.min x m)

/-- Rust `TimelineAggregate::next_action_tick`: least scheduled tick
strictly greater than `current_tick`. -/
def TimelineAggregate.next_action_tick (agg : TimelineAggregate) (current_tick : Nat) :
    Option Nat :=
  list_min ((agg.timeline.map Prod.fst).filter (fun tick => current_tick < tick))

/-- Rust `TimelineAggregate::next_breakpoint`. -/
def TimelineAggregate.next_breakpoint (agg : TimelineAggregate) (current_tick : Nat) :
    Option Nat :=
  list_min (agg.breakpoints.filter (fun tick => current_tick < tick))

/-- Rust `TimelineAggregate::next_event_tick`. -/
def TimelineAggregate.next_event_tick (agg : TimelineAggregate) (current_tick : Nat) :
    Option Nat :=
  match agg.next_action_tick current_tick, agg.next_breakpoint current_tick with
  | some a, some b => some (Nat.min a b)
  | some a, none => some a
  | none, some b => some b
  | none, none => none

/-! ### Declarative schedule (spec side of the refinement) -/

/-- Modelled from the spec: the flat schedule — for each test in input
order, for each timeline entry in order, one `(tick, (test_idx, entry,
value_idx))` pair per named tick, `value_idx` being the tick's 0-based
position in the entry's own tick list. -/
def sched_pairs (tests : List (TestSpec × Pos)) : List (Nat × SchedEntry) :=
  tests.enum.flatMap (fun p =>
    p.2.1.timeline.flatMap (fun e =>
      e.at_.to_vec.enum.map (fun vt => (vt.2, (p.1, e, vt.1)))))

/-- Modelled from the spec: the schedule entries attached to tick `t`, in
input-test order then timeline-entry order then tick-list order. -/
def canonical_bucket (tests : List (TestSpec × Pos)) (t : Nat) : List SchedEntry :=
  (sched_pairs tests).filterMap (fun kv => if kv.1 = t then some kv.2 else none)

/-- Modelled from the spec: every tick named anywhere in any input test. -/
def all_ticks (tests : List (TestSpec × Pos)) : List Nat :=
  tests.flatMap (fun p => p.1.timeline.flatMap (fun e => e.at_.to_vec))

/-- Modelled from the spec: the union (as a list) of all input tests'
breakpoint sets. -/
def all_bps (tests : List (TestSpec × Pos)) : List Nat :=
  tests.flatMap (fun p => p.1.breakpoints)

/-! ### HashMap-model lemmas -/

theorem hm_get_push_self {α : Type} (m : List (Nat × List α)) (k : Nat) (a : α) :
    hm_get (hm_push m k a) k = some ((hm_get m k).getD [] ++ [a]) := by
  induction m with
  | nil => simp [hm_push, hm_get]
  | cons hd tl ih =>
    by_cases h : hd.1 = k
    · cases hd with
      | mk k' l => simp_all [hm_push, hm_get]
    · cases hd with
      | mk k' l => simp_all [hm_push, hm_get]

theorem hm_get_push_other {α : Type} (m : List (Nat × List α)) (k k' : Nat) (a : α)
    (h : k' ≠ k) :
    hm_get (hm_push m k a) k' = hm_get m k' := by
  have hne : ¬ (k = k') := fun he => h he.symm
  induction m with
  | nil => simp [hm_push, hm_get, hne]
  | cons hd tl ih =>
    cases hd with
    | mk k0 l =>
      by_cases h0 : k0 = k
      · subst h0
        simp [hm_push, hm_get, hne]
      · by_cases h1 : k0 = k'
        · subst h1
          simp [hm_push, hm_get, h0]
        · simp [hm_push, hm_get, h0, h1, ih]

/-- Folding a list of pushes into the map. -/
def push_list {α : Type} (m : List (Nat × List α)) (l : List (Nat × α)) :
    List (Nat × List α) :=
  l.foldl (fun m kv => hm_push m kv.1 kv.2) m

theorem push_list_get {α : Type} (l : List (Nat × α)) :
    ∀ m k, (hm_get (push_list m l) k).getD [] =
      (hm_get m k).getD [] ++ l.filterMap (fun kv => if kv.1 = k then some kv.2 else none) := by
  induction l with
  | nil => intro m k; simp [push_list]
  | cons hd tl ih =>
    intro m k
    have hstep : push_list m (hd :: tl) = push_list (hm_push m hd.1 hd.2) tl := rfl
    rw [hstep, ih]
    by_cases h : hd.1 = k
    · subst h
      rw [hm_get_push_self]
      simp
    · rw [hm_get_push_other m hd.1 k hd.2 (fun he => h he.symm)]
      simp [h]

theorem hm_get_push_none {α : Type} (m : List (Nat × List α)) (k k' : Nat) (a : α) :
    hm_get (hm_push m k a) k' = none ↔ hm_get m k' = none ∧ k' ≠ k := by
  constructor
  · intro h
    by_cases he : k' = k
    · subst he
      rw [hm_get_push_self] at h
      cases h
    · rw [hm_get_push_other m k k' a he] at h
      exact ⟨h, he⟩
  · rintro ⟨h1, h2⟩
    rw [hm_get_push_other m k k' a h2]
    exact h1

theorem push_list_get_none {α : Type} (l : List (Nat × α)) :
    ∀ m k, hm_get (push_list m l) k = none ↔
      hm_get m k = none ∧ ∀ kv ∈ l, kv.1 ≠ k := by
  induction l with
  | nil => intro m k; simp [push_list]
  | cons hd tl ih =>
    intro m k
    have hstep : push_list m (hd :: tl) = push_list (hm_push m hd.1 hd.2) tl := rfl
    rw [hstep, ih, hm_get_push_none]
    constructor
    · rintro ⟨⟨h1, h2⟩, h3⟩
      refine ⟨h1, ?_⟩
      intro kv hkv
      rw [List.mem_cons] at hkv
      rcases hkv with h | h
      · rw [h]; exact fun he => h2 he.symm
      · exact h3 kv h
    · rintro ⟨h1, h2⟩
      exact ⟨⟨h1, fun he => h2 hd (List.mem_cons_self hd tl) he.symm⟩,
        fun kv hkv => h2 kv (List.mem_cons_of_mem hd hkv)⟩

theorem hm_mem_keys {α : Type} (m : List (Nat × List α)) (k : Nat) :
    k ∈ m.map Prod.fst ↔ hm_get m k ≠ none := by
  induction m with
  | nil => simp [hm_get]
  | cons hd tl ih =>
    cases hd with
    | mk k0 l =>
      by_cases h : k0 = k
      · subst h
        simp [hm_get]
      · have h' : ¬ (k = k0) := fun he => h he.symm
        simp [hm_get, h, h', ih]

/-! ### `from_tests` refinement -/

theorem push_list_append {α : Type} (m : List (Nat × List α)) (l1 l2 : List (Nat × α)) :
    push_list m (l1 ++ l2) = push_list (push_list m l1) l2 := by
  simp [push_list, List.foldl_append]

theorem foldl_push_flat {α β : Type} (l : List β) (g : β → List (Nat × α)) :
    ∀ m, l.foldl (fun m b => push_list m (g b)) m = push_list m (l.flatMap g) := by
  induction l with
  | nil => intro m; simp [push_list]
  | cons hd tl ih =>
    intro m
    rw [List.foldl_cons, ih, List.flatMap_cons, push_list_append]

/-- The timeline entry loop of `from_tests`, for one test, is a flat
sequence of pushes. -/
theorem from_tests_entry_fold (ti : Nat) (entries : List TimelineEntry) :
    ∀ tl, entries.foldl
        (fun tl entry =>
          entry.at_.to_vec.enum.foldl
            (fun tl vt => hm_push tl vt.2 (ti, entry, vt.1))
            tl)
        tl =
      push_list tl (entries.flatMap (fun e =>
        e.at_.to_vec.enum.map (fun vt => (vt.2, (ti, e, vt.1))))) := by
  have hone : ∀ (e : TimelineEntry) (tl : List (Nat × List SchedEntry)),
      e.at_.to_vec.enum.foldl (fun tl vt => hm_push tl vt.2 (ti, e, vt.1)) tl =
        push_list tl (e.at_.to_vec.enum.map (fun vt => (vt.2, (ti, e, vt.1)))) := by
    intro e tl
    unfold push_list
    rw [List.foldl_map]
  induction entries with
  | nil => intro tl; simp [push_list]
  | cons hd tl' ih =>
    intro tl
    rw [List.foldl_cons, hone, ih, List.flatMap_cons, push_list_append]

/-- Projections of the `from_tests` fold over an arbitrary accumulator. -/
theorem from_tests_fold (l : List (Nat × (TestSpec × Pos))) :
    ∀ acc : TimelineAggregate,
      (l.foldl
        (fun acc p =>
          { timeline :=
              p.2.1.timeline.foldl
                (fun tl entry =>
                  entry.at_.to_vec.enum.foldl
                    (fun tl vt => hm_push tl vt.2 (p.1, entry, vt.1))
                    tl)
                acc.timeline,
            max_tick :=
              if p.2.1.max_tick > acc.max_tick then p.2.1.max_tick else acc.max_tick,
            breakpoints := acc.breakpoints ++ p.2.1.breakpoints })
        acc) =
      { timeline :=
          push_list acc.timeline
            (l.flatMap (fun p =>
              p.2.1.timeline.flatMap (fun e =>
                e.at_.to_vec.enum.map (fun vt => (vt.2, (p.1, e, vt.1)))))),
        max_tick := list_max (acc.max_tick :: l.map (fun p => p.2.1.max_tick)),
        breakpoints := acc.breakpoints ++ l.flatMap (fun p => p.2.1.breakpoints) } := by
  induction l with
  | nil =>
    intro acc
    simp [push_list, list_max]
  | cons hd tl ih =>
    intro acc
    rw [List.foldl_cons, ih]
    congr 1
    · rw [from_tests_entry_fold, List.flatMap_cons, push_list_append]
    · simp only [list_max, List.map_cons, List.foldl_cons]
      congr 1
      simp only [Nat.zero_max]
      rcases Nat.lt_or_ge acc.max_tick hd.2.1.max_tick with hlt | hge
      · rw [if_pos hlt]
        exact (Nat.max_eq_right (Nat.le_of_lt hlt)).symm
      · rw [if_neg (Nat.not_lt.mpr hge)]
        exact (Nat.max_eq_left hge).symm
    · rw [List.flatMap_cons, List.append_assoc]

theorem from_tests_timeline (tests : List (TestSpec × Pos)) :
    (TimelineAggregate.from_tests tests).timeline = push_list [] (sched_pairs tests) := by
  unfold TimelineAggregate.from_tests
  rw [from_tests_fold]
  rfl

theorem from_tests_breakpoints_eq (tests : List (TestSpec × Pos)) :
    (TimelineAggregate.from_tests tests).breakpoints =
      tests.enum.flatMap (fun p => p.2.1.breakpoints) := by
  unfold TimelineAggregate.from_tests
  rw [from_tests_fold]
  rfl

/-- Enumeration only decorates; mapping a function of the element over an
enumerated list forgets the indices. -/
theorem enumFrom_map_snd {α β : Type} (f : α → β) :
    ∀ (l : List α) (n : Nat), (List.enumFrom n l).map (fun p => f p.2) = l.map f := by
  intro l
  induction l with
  | nil => intro n; rfl
  | cons hd tl ih =>
    intro n
    simp only [List.enumFrom, List.map_cons, ih]

theorem enum_map_snd' {α β : Type} (f : α → β) (l : List α) :
    l.enum.map (fun p => f p.2) = l.map f :=
  enumFrom_map_snd f l 0

theorem enumFrom_flatMap_snd {α β : Type} (g : α → List β) :
    ∀ (l : List α) (n : Nat), (List.enumFrom n l).flatMap (fun p => g p.2) = l.flatMap g := by
  intro l
  induction l with
  | nil => intro n; rfl
  | cons hd tl ih =>
    intro n
    simp only [List.enumFrom, List.flatMap_cons, ih]

theorem enum_flatMap_snd' {α β : Type} (g : α → List β) (l : List α) :
    l.enum.flatMap (fun p => g p.2) = l.flatMap g :=
  enumFrom_flatMap_snd g l 0

theorem from_tests_all_breakpoints (tests : List (TestSpec × Pos)) :
    (TimelineAggregate.from_tests tests).breakpoints = all_bps tests := by
  rw [from_tests_breakpoints_eq]
  exact enum_flatMap_snd' (fun q => q.1.breakpoints) tests

/-- Unfolded form of `Nat.max` for arithmetic reasoning. -/
theorem nat_max_eq (a b : Nat) : Nat.max a b = if a ≤ b then b else a := rfl

theorem foldl_max_init (l : List Nat) : ∀ a, l.foldl Nat.max a = Nat.max a (l.foldl Nat.max 0) := by
  induction l with
  | nil =>
    intro a
    simp only [List.foldl_nil, nat_max_eq]
    split
    · omega
    · rfl
  | cons hd tl ih =>
    intro a
    simp only [List.foldl_cons]
    rw [ih (Nat.max a hd), ih (Nat.max 0 hd)]
    simp only [nat_max_eq]
    split_ifs <;> omega

theorem list_max_append (l1 l2 : List Nat) :
    list_max (l1 ++ l2) = Nat.max (list_max l1) (list_max l2) := by
  unfold list_max
  rw [List.foldl_append, foldl_max_init l2]

theorem list_max_flatMap {α : Type} (l : List α) (g : α → List Nat) :
    list_max (l.flatMap g) = list_max (l.map (fun x => list_max (g x))) := by
  induction l with
  | nil => rfl
  | cons hd tl ih =>
    rw [List.flatMap_cons, list_max_append, List.map_cons, ih]
    show _ = List.foldl Nat.max 0 (list_max (g hd) :: _)
    rw [List.foldl_cons, foldl_max_init]
    congr 1
    simp only [nat_max_eq]
    split
    · rfl
    · omega

theorem from_tests_max_all (tests : List (TestSpec × Pos)) :
    (TimelineAggregate.from_tests tests).max_tick = list_max (all_ticks tests) := by
  have h1 : (TimelineAggregate.from_tests tests).max_tick
      = list_max (tests.enum.map (fun p => p.2.1.max_tick)) := by
    unfold TimelineAggregate.from_tests
    rw [from_tests_fold]
    rfl
  have h2 : tests.enum.map (fun p => p.2.1.max_tick)
      = tests.map (fun p => p.1.max_tick) := enum_map_snd' (fun q => q.1.max_tick) tests
  have h3 : list_max (all_ticks tests)
      = list_max (tests.map (fun p =>
          list_max (p.1.timeline.flatMap (fun e => e.at_.to_vec)))) := by
    unfold all_ticks
    rw [list_max_flatMap]
  rw [h1, h2, h3]
  rfl

theorem from_tests_bucket (tests : List (TestSpec × Pos)) (t : Nat) :
    (hm_get (TimelineAggregate.from_tests tests).timeline t).getD [] =
      canonical_bucket tests t := by
  rw [from_tests_timeline, push_list_get]
  simp [hm_get, canonical_bucket]

theorem from_tests_scheduled_mem (tests : List (TestSpec × Pos)) (t : Nat) :
    t ∈ (TimelineAggregate.from_tests tests).timeline.map Prod.fst
      ↔ t ∈ (sched_pairs tests).map Prod.fst := by
  rw [hm_mem_keys, from_tests_timeline, Ne, push_list_get_none]
  simp only [hm_get, true_and]
  rw [List.mem_map]
  constructor
  · intro h
    by_contra hc
    apply h
    intro kv hkv he
    exact hc ⟨kv, hkv, he⟩
  · rintro ⟨kv, hkv, he⟩ h
    exact h kv hkv he

/-! ### `list_min` characterisation and the next-event queries -/

/-- Unfolded form of `Nat.min`. -/
theorem nat_min_eq (a b : Nat) : Nat.min a b = if a ≤ b then a else b := rfl

theorem list_min_none (l : List Nat) : list_min l = none ↔ l = [] := by
  cases l with
  | nil => simp [list_min]
  | cons hd tl =>
    simp only [list_min]
    cases h : list_min tl <;> simp

theorem list_min_mem_le : ∀ (l : List Nat) (a : Nat), list_min l = some a →
    a ∈ l ∧ ∀ b ∈ l, a ≤ b := by
  intro l
  induction l with
  | nil => intro a h; cases h
  | cons hd tl ih =>
    intro a h
    simp only [list_min] at h
    cases htl : list_min tl with
    | none =>
      rw [htl] at h
      simp only [] at h
      have ha : hd = a := by
        injection h
      have hnil : tl = [] := (list_min_none tl).mp htl
      subst hnil
      subst ha
      exact ⟨List.mem_singleton.mpr rfl, by intro b hb; rw [List.mem_singleton] at hb; omega⟩
    | some m =>
      rw [htl] at h
      simp only [] at h
      have hmin : Nat.min hd m = a := by injection h
      obtain ⟨hm, hb⟩ := ih m htl
      constructor
      · rcases Nat.le_total hd m with hle | hle
        · have he : Nat.min hd m = hd := Nat.min_eq_left hle
          rw [← hmin, he]
          exact List.mem_cons_self hd tl
        · have he : Nat.min hd m = m := Nat.min_eq_right hle
          rw [← hmin, he]
          exact List.mem_cons_of_mem hd hm
      · intro b hb'
        rw [List.mem_cons] at hb'
        rcases hb' with hbh | hbtl
        · rw [hbh, ← hmin]
          exact Nat.min_le_left hd m
        · rw [← hmin]
          exact Nat.le_trans (Nat.min_le_right hd m) (hb b hbtl)

/-- Modelled from the spec: `r` is the least element of `s` strictly
greater than `t` when one exists, and nothing when none exists. -/
def NextStrict (t : Nat) (s : List Nat) (r : Option Nat) : Prop :=
  (∀ a, r = some a → a ∈ s ∧ t < a ∧ ∀ b ∈ s, t < b → a ≤ b) ∧
  (r = none → ∀ b ∈ s, b ≤ t)

theorem next_strict_of_min (t : Nat) (s : List Nat) :
    NextStrict t s (list_min (s.filter (fun b => t < b))) := by
  constructor
  · intro a ha
    obtain ⟨hmem, hle⟩ := list_min_mem_le _ a ha
    rw [List.mem_filter] at hmem
    refine ⟨hmem.1, by simpa using hmem.2, ?_⟩
    intro b hb htb
    exact hle b (List.mem_filter.mpr ⟨hb, by simpa⟩)
  · intro hnone b hb
    rw [list_min_none] at hnone
    by_contra hlt
    push_neg at hlt
    have : b ∈ s.filter (fun b => t < b) := List.mem_filter.mpr ⟨hb, by simpa⟩
    rw [hnone] at this
    cases this

theorem next_strict_congr (t : Nat) (s1 s2 : List Nat)
    (h : ∀ x, x ∈ s1 ↔ x ∈ s2) (r : Option Nat)
    (hs : NextStrict t s1 r) : NextStrict t s2 r := by
  obtain ⟨hsome, hnone⟩ := hs
  constructor
  · intro a ha
    obtain ⟨h1, h2, h3⟩ := hsome a ha
    exact ⟨(h a).mp h1, h2, fun b hb htb => h3 b ((h b).mpr hb) htb⟩
  · intro hn b hb
    exact hnone hn b ((h b).mpr hb)

/-- The combination the code applies to the two next-queries: minimum
when both exist, the present one when only one exists, none otherwise. -/
def opt_min_combine : Option Nat → Option Nat → Option Nat
  | some a, some b => some (Nat.min a b)
  | some a, none => some a
  | none, some b => some b
  | none, none => none

theorem next_strict_union (t : Nat) (s1 s2 : List Nat) (r1 r2 : Option Nat)
    (h1 : NextStrict t s1 r1) (h2 : NextStrict t s2 r2) :
    NextStrict t (s1 ++ s2) (opt_min_combine r1 r2) := by
  unfold NextStrict
  cases r1 with
  | none =>
    cases r2 with
    | none =>
      refine ⟨?_, ?_⟩
      · intro a ha
        cases ha
      · intro _ b hb
        rw [List.mem_append] at hb
        rcases hb with hb | hb
        · exact h1.2 rfl b hb
        · exact h2.2 rfl b hb
    | some b2 =>
      refine ⟨fun a ha => ?_, fun hn => by cases hn⟩
      have ha' : b2 = a := by
        simpa [opt_min_combine] using ha
      subst ha'
      obtain ⟨hm, ht, hmin⟩ := h2.1 b2 rfl
      refine ⟨List.mem_append.mpr (Or.inr hm), ht, ?_⟩
      intro b hb htb
      rw [List.mem_append] at hb
      rcases hb with hb | hb
      · exact absurd htb (Nat.not_lt.mpr (h1.2 rfl b hb))
      · exact hmin b hb htb
  | some a1 =>
    cases r2 with
    | none =>
      refine ⟨fun a ha => ?_, fun hn => by cases hn⟩
      have ha' : a1 = a := by
        simpa [opt_min_combine] using ha
      subst ha'
      obtain ⟨hm, ht, hmin⟩ := h1.1 a1 rfl
      refine ⟨List.mem_append.mpr (Or.inl hm), ht, ?_⟩
      intro b hb htb
      rw [List.mem_append] at hb
      rcases hb with hb | hb
      · exact hmin b hb htb
      · exact absurd htb (Nat.not_lt.mpr (h2.2 rfl b hb))
    | some b2 =>
      refine ⟨fun a ha => ?_, fun hn => by cases hn⟩
      have ha' : Nat.min a1 b2 = a := by
        simpa [opt_min_combine] using ha
      obtain ⟨hm1, ht1, hmin1⟩ := h1.1 a1 rfl
      obtain ⟨hm2, ht2, hmin2⟩ := h2.1 b2 rfl
      subst ha'
      refine ⟨?_, ?_, ?_⟩
      · rcases Nat.le_total a1 b2 with hle | hle
        · have he : Nat.min a1 b2 = a1 := Nat.min_eq_left hle
          rw [he]
          exact List.mem_append.mpr (Or.inl hm1)
        · have he : Nat.min a1 b2 = b2 := Nat.min_eq_right hle
          rw [he]
          exact List.mem_append.mpr (Or.inr hm2)
      · rcases Nat.le_total a1 b2 with hle | hle
        · have he : Nat.min a1 b2 = a1 := Nat.min_eq_left hle
          rw [he]; exact ht1
        · have he : Nat.min a1 b2 = b2 := Nat.min_eq_right hle
          rw [he]; exact ht2
      · intro b hb htb
        rw [List.mem_append] at hb
        rcases hb with hb | hb
        · exact Nat.le_trans (Nat.min_le_left a1 b2) (hmin1 b hb htb)
        · exact Nat.le_trans (Nat.min_le_right a1 b2) (hmin2 b hb htb)

/-- C5: the aggregate built by `from_tests` refines the declarative
schedule — the bucket stored for any tick `t` is exactly the canonical
list of entries attached to `t` (one entry per named tick of each
timeline entry, in input-test order then timeline-entry order then
tick-list order, tagged `(test_idx, entry, value_idx)` with `value_idx`
the tick's 0-based position in the entry's own tick list, so an entry
naming k ticks contributes exactly k schedule entries); and `max_tick`
is the maximum tick named by any entry of any input test, an empty
timeline contributing 0 (`list_max` of the empty list). -/
theorem from_tests_schedule_spec (tests : List (TestSpec × Pos)) :
    (∀ t, (hm_get (TimelineAggregate.from_tests tests).timeline t).getD [] =
      canonical_bucket tests t) ∧
    (TimelineAggregate.from_tests tests).max_tick = list_max (all_ticks tests) :=
  ⟨fun t => from_tests_bucket tests t, from_tests_max_all tests⟩

/-- C6: `next_action_tick t` is the least scheduled tick strictly greater
than `t` (none when no such tick exists), `next_breakpoint t` is the least
element strictly greater than `t` of the union of all input tests'
breakpoint sets, and `next_event_tick t` is the least element strictly
greater than `t` of the union of the scheduled ticks and the breakpoints
— equivalently the minimum of the two queries when both exist, the one
that exists when only one does, and none when neither does. -/
theorem timeline_next_queries_spec (tests : List (TestSpec × Pos)) (t : Nat) :
    NextStrict t ((sched_pairs tests).map Prod.fst)
      ((TimelineAggregate.from_tests tests).next_action_tick t) ∧
    NextStrict t (all_bps tests)
      ((TimelineAggregate.from_tests tests).next_breakpoint t) ∧
    NextStrict t ((sched_pairs tests).map Prod.fst ++ all_bps tests)
      ((TimelineAggregate.from_tests tests).next_event_tick t) := by
  have hact : NextStrict t ((sched_pairs tests).map Prod.fst)
      ((TimelineAggregate.from_tests tests).next_action_tick t) := by
    apply next_strict_congr t
      ((TimelineAggregate.from_tests tests).timeline.map Prod.fst)
    · exact fun x => from_tests_scheduled_mem tests x
    · exact next_strict_of_min t _
  have hbp : NextStrict t (all_bps tests)
      ((TimelineAggregate.from_tests tests).next_breakpoint t) := by
    rw [← from_tests_all_breakpoints]
    exact next_strict_of_min t _
  have hev : (TimelineAggregate.from_tests tests).next_event_tick t =
      opt_min_combine ((TimelineAggregate.from_tests tests).next_action_tick t)
        ((TimelineAggregate.from_tests tests).next_breakpoint t) := by
    unfold TimelineAggregate.next_event_tick opt_min_combine
    rfl
  refine ⟨hact, hbp, ?_⟩
  rw [hev]
  exact next_strict_union t _ _ _ _ hact hbp

/-! ## Results model (`src/results.rs`) -/

/-- Rust `InfoType` (constructors `String`/`Block` are `str`/`block` to
avoid clashing with the type names). -/
inductive InfoType where
  | str (s : String)
  | block (b : Block)

/-- Rust `AssertFailure`. -/
structure AssertFailure where
  tick : Nat
  error_message : String
  position : Pos
  execution_time_ms : Option Nat
  expected : InfoType
  actual : InfoType

/-- Rust `AssertionResult`. -/
inductive AssertionResult where
  | Success (tick : Nat)
  | Failure (f : AssertFailure)

/-- Rust `TestResult` (plus the `minecraft_ids` the runner copies from the
spec). -/
structure TestResult where
  test_name : String
  success : Bool
  assertions : List AssertionResult
  total_ticks : Nat
  execution_time_ms : Nat
  failure_reason : Option String
  test_offset : Option Pos
  minecraft_ids : List String

/-- Rust `TestResult::new`. -/
def TestResult.new (test_name : String) : TestResult :=
  { test_name := test_name, success := true, assertions := [], total_ticks := 0,
    execution_time_ms := 0, failure_reason := none, test_offset := none,
    minecraft_ids := [] }

/-- Rust `TestResult::add_assertion`: push the result, and flip `success`
to false on a failure. -/
def TestResult.add_assertion (r : TestResult) (a : AssertionResult) : TestResult :=
  match a with
  | .Failure _ => { r with success := false, assertions := r.assertions ++ [a] }
  | .Success _ => { r with assertions := r.assertions ++ [a] }

/-- Rust `TestSummary`. -/
structure TestSummary where
  results : List TestResult
  total_tests : Nat
  passed_tests : Nat
  failed_tests : Nat
  total_execution_time_ms : Nat

/-- Rust `TestSummary::from_results`. -/
def TestSummary.from_results (results : List TestResult) : TestSummary :=
  { results := results,
    total_tests := results.length,
    passed_tests := (results.filter (fun r => r.success)).length,
    failed_tests := results.length - (results.filter (fun r => r.success)).length,
    total_execution_time_ms := (results.map (fun r => r.execution_time_ms)).foldl (· + ·) 0 }

/-! ## Runner (`src/runner.rs`) -/

/-- Rust `ActionOutcome`. -/
inductive ActionOutcome where
  | action
  | assertPassed
  | assertFailed (f : AssertFailure)

/-- The adapter boundary (`FlintAdapter` / `FlintWorld` / `FlintPlayer`):
state-transformers over one abstract state `S` carrying the world and the
player. -/
structure Adapter (S : Type) where
  create_test_world : S
  set_block : S → Pos → Block → S
  get_block : S → Pos → Block
  do_tick : S → S
  create_player : S → S
  set_slot : S → PlayerSlot → Option Item → S
  select_hotbar : S → Nat → S
  use_item_on : S → Pos → BlockFace → S

/-- The runner's `player.get_or_insert_with(|| world.create_player())`: the
`Bool` is whether the `Option<Box<dyn FlintPlayer>>` is populated. -/
def ensure_player {S : Type} (A : Adapter S) (st : S × Bool) : S × Bool :=
  if st.2 then st else (A.create_player st.1, true)

/-- Inclusive integer range `lo..=hi` as a list. -/
def int_range (lo hi : Int) : List Int :=
  (List.range (hi + 1 - lo).toNat).map (fun k => lo + (k : Int))

/-- The positions the `Fill` action writes, in loop order (x outer, then
y, then z), with inverted corners normalised by min/max per axis. -/
def fill_positions (region : Pos × Pos) : List Pos :=
  (int_range (min region.1.1 region.2.1) (max region.1.1 region.2.1)).flatMap (fun x =>
    (int_range (min region.1.2.1 region.2.2.1) (max region.1.2.1 region.2.2.1)).flatMap (fun y =>
      (int_range (min region.1.2.2 region.2.2.2) (max region.1.2.2 region.2.2.2)).map
        (fun z => (x, y, z))))

/-- Rust `{:?}` rendering of a position (used only inside messages). -/
def pos_debug (p : Pos) : String :=
  "[" ++ toString p.1 ++ ", " ++ toString p.2.1 ++ ", " ++ toString p.2.2 ++ "]"

/-- The `Assert` loop of `execute_action`: evaluate every check in order;
the first mismatch yields the failure record (tick, message, position,
expected and actual blocks), otherwise the whole action passes once. -/
def run_checks {S : Type} (A : Adapter S) (w : S) (tick : Nat) :
    List BlockCheck → ActionOutcome
  | [] => .assertPassed
  | check :: rest =>
    let actual := A.get_block w check.pos
    if block_matches actual check.is_ then
      run_checks A w tick rest
    else
      .assertFailed
        { tick := tick,
          error_message := "Block mismatch at " ++ pos_debug check.pos ++
            ": expected " ++ check.is_.to_command ++ ", got " ++ actual.to_command,
          position := check.pos,
          execution_time_ms := none,
          expected := .block check.is_,
          actual := .block actual }

/-- Rust `TestRunner::execute_action`. -/
def execute_action {S : Type} (A : Adapter S) (st : S × Bool) (action : ActionType)
    (tick : Nat) : ActionOutcome × (S × Bool) :=
  match action with
  | .Place pos block => (.action, (A.set_block st.1 pos block, st.2))
  | .PlaceEach blocks =>
      (.action, (blocks.foldl (fun w p => A.set_block w p.pos p.block) st.1, st.2))
  | .Fill region fill_with =>
      (.action, ((fill_positions region).foldl (fun w p => A.set_block w p fill_with) st.1, st.2))
  | .Remove pos =>
      (.action, (A.set_block st.1 pos { id := "minecraft:air", properties := [] }, st.2))
  | .Assert checks => (run_checks A st.1 tick checks, st)
  | .UseItemOn pos face item =>
      let st1 := ensure_player A st
      let st2 :=
        match item with
        | some item_id =>
            (A.select_hotbar (A.set_slot st1.1 PlayerSlot.Hotbar1 (some (Item.new item_id))) 1,
             st1.2)
        | none => st1
      (.action, (A.use_item_on st2.1 pos face, st2.2))
  | .SetSlot slot item count =>
      let st1 := ensure_player A st
      match item with
      | some item_id =>
          (.action, (A.set_slot st1.1 slot (some (Item.with_count item_id count)), st1.2))
      | none => (.action, (A.set_slot st1.1 slot none, st1.2))
  | .SelectHotbar slot =>
      let st1 := ensure_player A st
      (.action, (A.select_hotbar st1.1 slot, st1.2))

/-! ### Ghost trace of a run -/

/-- Outcome tag of a dispatched action. -/
inductive DispatchKind where
  | action
  | passed
  | failed (f : AssertFailure)

/-- One dispatched action as recorded in the ghost trace. -/
structure Dispatch where
  tick : Nat
  test_idx : Nat
  entry : TimelineEntry
  value_idx : Nat
  outcome : DispatchKind

/-- A trace event: an action dispatch or one world-tick advance
(`do_tick`). -/
inductive TraceEv where
  | act (d : Dispatch)
  | tick_advance

/-- A planned event: what the trace should look like with outcomes
erased. -/
inductive PlanEv where
  | act (tick : Nat) (test_idx : Nat) (entry : TimelineEntry) (value_idx : Nat)
  | advance

def ev_plan : TraceEv → PlanEv
  | .act d => .act d.tick d.test_idx d.entry d.value_idx
  | .tick_advance => .advance

def plan_of (tr : List TraceEv) : List PlanEv := tr.map ev_plan

def ev_is_failed : TraceEv → Bool
  | .act d =>
    match d.outcome with
    | .failed _ => true
    | _ => false
  | .tick_advance => false

def ev_is_advance : TraceEv → Bool
  | .tick_advance => true
  | .act _ => false

/-- Number of `do_tick` advances recorded in a trace. -/
def adv_count (tr : List TraceEv) : Nat := (tr.filter ev_is_advance).length

/-- The assertion record a dispatched action appends, if any. -/
def trace_assertion : TraceEv → Option AssertionResult
  | .act d =>
    match d.outcome with
    | .action => none
    | .passed => some (.Success d.tick)
    | .failed f => some (.Failure f)
  | .tick_advance => none

/-- The plan of dispatching a bucket at a tick. -/
def sched_plan (tick : Nat) (l : List SchedEntry) : List PlanEv :=
  l.map (fun x => PlanEv.act tick x.1 x.2.1 x.2.2)

/-- `l1` is an initial segment of `l2`. -/
def IsInitSeg {α : Type} (l1 l2 : List α) : Prop := ∃ s, l1 ++ s = l2

/-! ### The tick loop -/

/-- Result of processing one tick's bucket. -/
structure DispatchResult (S : Type) where
  state : S × Bool
  result : TestResult
  trace : List TraceEv
  aborted : Option AssertFailure

/-- The inner action loop of `run_test` at one tick: dispatch the bucket's
entries in order, appending `Success`/`Failure` records; the first failing
assertion stops processing immediately. -/
def dispatch_all {S : Type} (A : Adapter S) (tick : Nat) :
    (S × Bool) → TestResult → List SchedEntry → DispatchResult S
  | st, res, [] => ⟨st, res, [], none⟩
  | st, res, se :: rest =>
    match execute_action A st se.2.1.action_type tick with
    | (.action, st') =>
        let r := dispatch_all A tick st' res rest
        ⟨r.state, r.result,
          .act ⟨tick, se.1, se.2.1, se.2.2, .action⟩ :: r.trace, r.aborted⟩
    | (.assertPassed, st') =>
        let r := dispatch_all A tick st' (res.add_assertion (.Success tick)) rest
        ⟨r.state, r.result,
          .act ⟨tick, se.1, se.2.1, se.2.2, .passed⟩ :: r.trace, r.aborted⟩
    | (.assertFailed f, st') =>
        ⟨st', res.add_assertion (.Failure f),
          [.act ⟨tick, se.1, se.2.1, se.2.2, .failed f⟩], some f⟩

/-- Result of the tick loop. -/
structure LoopResult (S : Type) where
  state : S × Bool
  result : TestResult
  trace : List TraceEv

/-- The `for tick in 0..=max_tick` loop of `run_test`: process the bucket
of the current tick, return immediately on an assertion failure (pinning
`success`/`total_ticks`), otherwise advance the world one tick and
continue; after the last tick `total_ticks` is set to `max_tick`. -/
def tick_loop {S : Type} (A : Adapter S) (agg : TimelineAggregate) :
    (S × Bool) → TestResult → Nat → Nat → LoopResult S
  | st, res, _, 0 => ⟨st, { res with total_ticks := agg.max_tick }, []⟩
  | st, res, t, fuel + 1 =>
    match (dispatch_all A t st res ((hm_get agg.timeline t).getD [])).aborted with
    | some _ =>
        ⟨(dispatch_all A t st res ((hm_get agg.timeline t).getD [])).state,
          { (dispatch_all A t st res ((hm_get agg.timeline t).getD [])).result with
              success := false, total_ticks := t },
          (dispatch_all A t st res ((hm_get agg.timeline t).getD [])).trace⟩
    | none =>
        let D := dispatch_all A t st res ((hm_get agg.timeline t).getD [])
        let R := tick_loop A agg (A.do_tick D.state.1, D.state.2) D.result (t + 1) fuel
        ⟨R.state, R.result, D.trace ++ .tick_advance :: R.trace⟩

/-- Output of a run: the `TestResult` plus the ghost observations. -/
structure RunOutput (S : Type) where
  result : TestResult
  final_state : S × Bool
  trace : List TraceEv

/-- Initialisation of a run: fresh world (no player yet), then — when the
spec's setup names a player configuration — eager player creation,
population of the named inventory slots, and the configured hotbar
selection. -/
def initial_state {S : Type} (A : Adapter S) (spec : TestSpec) : S × Bool :=
  let st0 : S × Bool := (A.create_test_world, false)
  match spec.setup with
  | some su =>
    match su.player with
    | some pc =>
      let stp := ensure_player A st0
      let stq := (pc.inventory.foldl (fun w si => A.set_slot w si.1 (some si.2)) stp.1, stp.2)
      (A.select_hotbar stq.1 pc.selected_hotbar, stq.2)
    | none => st0
  | none => st0

/-- Rust `TestRunner::run_test`: fresh world, single-test aggregate at
offset (0,0,0), optional eager player setup, then the tick loop.
`execution_time_ms` stays 0 (wall-clock time is not modelled). -/
def run_test {S : Type} (A : Adapter S) (spec : TestSpec) : RunOutput S :=
  let agg := TimelineAggregate.from_tests [(spec, ((0 : Int), (0 : Int), (0 : Int)))]
  let res0 := { TestResult.new spec.name with minecraft_ids := spec.minecraft_ids }
  let L := tick_loop A agg (initial_state A spec) res0 0 (agg.max_tick + 1)
  ⟨L.result, L.state, L.trace⟩

/-- Rust `TestRunner::run_tests`: sequential, independent runs, one
result per spec, aggregated by `TestSummary::from_results`. -/
def run_tests {S : Type} (A : Adapter S) (specs : List TestSpec) : TestSummary :=
  TestSummary.from_results (specs.map (fun sp => (run_test A sp).result))

/-- Planned trace over a bucket function: for each tick in increasing
order, the bucket's dispatches then exactly one advance. -/
def planned_buckets (bucket : Nat → List SchedEntry) : Nat → Nat → List PlanEv
  | _, 0 => []
  | t, fuel + 1 =>
    sched_plan t (bucket t) ++ PlanEv.advance :: planned_buckets bucket (t + 1) fuel

/-- Modelled from the spec: the full planned sequence of a single-spec
run — for each tick 0 through `max_tick` inclusive in increasing order,
the canonical bucket's dispatches in schedule order followed by exactly
one world-tick advance. -/
def planned_one (spec : TestSpec) : List PlanEv :=
  planned_buckets
    (fun t => canonical_bucket [(spec, ((0 : Int), (0 : Int), (0 : Int)))] t)
    0 (spec.max_tick + 1)

/-! ### Trace helper lemmas -/

theorem initseg_nil {α : Type} (l : List α) : IsInitSeg [] l := ⟨l, rfl⟩

theorem initseg_refl {α : Type} (l : List α) : IsInitSeg l l := ⟨[], List.append_nil l⟩

theorem initseg_cons {α : Type} (x : α) {l1 l2 : List α} (h : IsInitSeg l1 l2) :
    IsInitSeg (x :: l1) (x :: l2) := by
  obtain ⟨s, hs⟩ := h
  exact ⟨s, by rw [List.cons_append, hs]⟩

theorem initseg_append_right {α : Type} {l1 l2 : List α} (l3 : List α)
    (h : IsInitSeg l1 l2) : IsInitSeg l1 (l2 ++ l3) := by
  obtain ⟨s, hs⟩ := h
  exact ⟨s ++ l3, by rw [← List.append_assoc, hs]⟩

theorem initseg_append_both {α : Type} (a : List α) {l1 l2 : List α}
    (h : IsInitSeg l1 l2) : IsInitSeg (a ++ l1) (a ++ l2) := by
  obtain ⟨s, hs⟩ := h
  exact ⟨s, by rw [List.append_assoc, hs]⟩

theorem plan_of_nil : plan_of [] = [] := rfl

theorem plan_of_cons (x : TraceEv) (tr : List TraceEv) :
    plan_of (x :: tr) = ev_plan x :: plan_of tr := rfl

theorem plan_of_append (l1 l2 : List TraceEv) :
    plan_of (l1 ++ l2) = plan_of l1 ++ plan_of l2 := List.map_append ev_plan l1 l2

theorem adv_count_nil : adv_count [] = 0 := rfl

theorem adv_count_cons_act (d : Dispatch) (tr : List TraceEv) :
    adv_count (TraceEv.act d :: tr) = adv_count tr := by
  simp [adv_count, List.filter_cons, ev_is_advance]

theorem adv_count_cons_adv (tr : List TraceEv) :
    adv_count (TraceEv.tick_advance :: tr) = adv_count tr + 1 := by
  simp [adv_count, List.filter_cons, ev_is_advance]

theorem adv_count_append (l1 l2 : List TraceEv) :
    adv_count (l1 ++ l2) = adv_count l1 + adv_count l2 := by
  simp [adv_count, List.filter_append]

theorem adv_count_all_act (tr : List TraceEv)
    (h : ∀ ev ∈ tr, ∃ d, ev = TraceEv.act d) : adv_count tr = 0 := by
  induction tr with
  | nil => rfl
  | cons hd tl ih =>
    obtain ⟨d, hd'⟩ := h hd (List.mem_cons_self hd tl)
    subst hd'
    rw [adv_count_cons_act]
    exact ih (fun ev hev => h ev (List.mem_cons_of_mem _ hev))

/-! ### `run_checks` / `execute_action` classification -/

theorem run_checks_failed {S : Type} (A : Adapter S) (w : S) (tick : Nat) :
    ∀ (checks : List BlockCheck) (f : AssertFailure),
      run_checks A w tick checks = .assertFailed f →
      f.tick = tick ∧ ∃ c ∈ checks, f.position = c.pos ∧
        f.expected = InfoType.block c.is_ ∧
        f.actual = InfoType.block (A.get_block w c.pos) ∧
        block_matches (A.get_block w c.pos) c.is_ = false := by
  intro checks
  induction checks with
  | nil =>
    intro f h
    simp [run_checks] at h
  | cons c rest ih =>
    intro f h
    simp only [run_checks] at h
    by_cases hbm : block_matches (A.get_block w c.pos) c.is_ = true
    · rw [if_pos hbm] at h
      obtain ⟨h1, c', hc', hrest⟩ := ih f h
      exact ⟨h1, c', List.mem_cons_of_mem c hc', hrest⟩
    · rw [if_neg hbm] at h
      injection h with hf
      subst hf
      refine ⟨rfl, c, List.mem_cons_self c rest, rfl, rfl, rfl, ?_⟩
      simpa using hbm

theorem execute_action_failed {S : Type} (A : Adapter S) (st : S × Bool)
    (act : ActionType) (tick : Nat) (f : AssertFailure) (st' : S × Bool)
    (h : execute_action A st act tick = (.assertFailed f, st')) :
    ∃ checks, act = ActionType.Assert checks ∧ st' = st ∧
      run_checks A st.1 tick checks = .assertFailed f := by
  cases act with
  | Place pos block => simp [execute_action] at h
  | PlaceEach blocks => simp [execute_action] at h
  | Fill region fw => simp [execute_action] at h
  | Remove pos => simp [execute_action] at h
  | Assert checks =>
    simp only [execute_action, Prod.mk.injEq] at h
    exact ⟨checks, rfl, h.2.symm, h.1⟩
  | UseItemOn pos face item =>
    cases item <;> simp [execute_action] at h
  | SetSlot slot item count =>
    cases item <;> simp [execute_action] at h
  | SelectHotbar slot => simp [execute_action] at h

theorem add_assertion_total (r : TestResult) (a : AssertionResult) :
    (r.add_assertion a).total_ticks = r.total_ticks := by
  cases a <;> rfl

theorem add_assertion_assertions (r : TestResult) (a : AssertionResult) :
    (r.add_assertion a).assertions = r.assertions ++ [a] := by
  cases a <;> rfl

theorem add_assertion_success_S (r : TestResult) (t : Nat) :
    (r.add_assertion (.Success t)).success = r.success := rfl

theorem add_assertion_success_F (r : TestResult) (f : AssertFailure) :
    (r.add_assertion (.Failure f)).success = false := rfl

theorem dispatch_all_spec {S : Type} (A : Adapter S) (tick : Nat) :
    ∀ (l : List SchedEntry) (st : S × Bool) (res : TestResult),
      (dispatch_all A tick st res l).result.total_ticks = res.total_ticks ∧
      (dispatch_all A tick st res l).result.assertions =
        res.assertions ++ (dispatch_all A tick st res l).trace.filterMap trace_assertion ∧
      (∀ ev ∈ (dispatch_all A tick st res l).trace, ∃ d, ev = TraceEv.act d ∧ d.tick = tick) ∧
      IsInitSeg (plan_of (dispatch_all A tick st res l).trace) (sched_plan tick l) ∧
      ((dispatch_all A tick st res l).aborted = none →
        (dispatch_all A tick st res l).result.success = res.success ∧
        plan_of (dispatch_all A tick st res l).trace = sched_plan tick l ∧
        ∀ ev ∈ (dispatch_all A tick st res l).trace, ev_is_failed ev = false) ∧
      (∀ f, (dispatch_all A tick st res l).aborted = some f →
        (dispatch_all A tick st res l).result.success = false ∧
        ∃ tr' d, (dispatch_all A tick st res l).trace = tr' ++ [TraceEv.act d] ∧
          (∀ ev ∈ tr', ev_is_failed ev = false) ∧
          d.outcome = DispatchKind.failed f ∧ d.tick = tick ∧ f.tick = tick ∧
          ∃ checks, d.entry.action_type = ActionType.Assert checks ∧
            ∃ c ∈ checks, f.position = c.pos ∧ f.expected = InfoType.block c.is_ ∧
              ∃ b, f.actual = InfoType.block b ∧ block_matches b c.is_ = false) := by
  intro l
  induction l with
  | nil =>
    intro st res
    refine ⟨rfl, by simp [dispatch_all], ?_, ⟨[], rfl⟩, ?_, ?_⟩
    · intro ev hev
      simp [dispatch_all] at hev
    · intro _
      refine ⟨rfl, rfl, ?_⟩
      intro ev hev
      simp [dispatch_all] at hev
    · intro f hf
      simp [dispatch_all] at hf
  | cons se rest ih =>
    intro st res
    have hsp : sched_plan tick (se :: rest)
        = PlanEv.act tick se.1 se.2.1 se.2.2 :: sched_plan tick rest := rfl
    rcases hex : execute_action A st se.2.1.action_type tick with ⟨oc, st'⟩
    cases oc with
    | action =>
      obtain ⟨iht, iha, ihe, ihp, ihn, ihf⟩ := ih st' res
      refine ⟨?_, ?_, ?_, ?_, ?_, ?_⟩ <;> simp only [dispatch_all, hex]
      · exact iht
      · rw [List.filterMap_cons]
        simp only [trace_assertion]
        exact iha
      · intro ev hev
        rw [List.mem_cons] at hev
        rcases hev with h | h
        · exact ⟨_, h, rfl⟩
        · exact ihe ev h
      · rw [plan_of_cons, hsp]
        exact initseg_cons _ ihp
      · intro hab
        obtain ⟨h1, h2, h3⟩ := ihn hab
        refine ⟨h1, ?_, ?_⟩
        · rw [plan_of_cons, hsp, h2]
          rfl
        · intro ev hev
          rw [List.mem_cons] at hev
          rcases hev with h | h
          · rw [h]; rfl
          · exact h3 ev h
      · intro f hf
        obtain ⟨h1, tr', d, htr, hfree, hout, hdt, hft, hcontent⟩ := ihf f hf
        refine ⟨h1, TraceEv.act ⟨tick, se.1, se.2.1, se.2.2, .action⟩ :: tr', d, ?_, ?_,
          hout, hdt, hft, hcontent⟩
        · rw [List.cons_append, htr]
        · intro ev hev
          rw [List.mem_cons] at hev
          rcases hev with h | h
          · rw [h]; rfl
          · exact hfree ev h
    | assertPassed =>
      obtain ⟨iht, iha, ihe, ihp, ihn, ihf⟩ := ih st' (res.add_assertion (.Success tick))
      refine ⟨?_, ?_, ?_, ?_, ?_, ?_⟩ <;> simp only [dispatch_all, hex]
      · rw [iht, add_assertion_total]
      · rw [List.filterMap_cons]
        simp only [trace_assertion]
        rw [iha, add_assertion_assertions, List.append_assoc]
        rfl
      · intro ev hev
        rw [List.mem_cons] at hev
        rcases hev with h | h
        · exact ⟨_, h, rfl⟩
        · exact ihe ev h
      · rw [plan_of_cons, hsp]
        exact initseg_cons _ ihp
      · intro hab
        obtain ⟨h1, h2, h3⟩ := ihn hab
        refine ⟨by rw [h1, add_assertion_success_S], ?_, ?_⟩
        · rw [plan_of_cons, hsp, h2]
          rfl
        · intro ev hev
          rw [List.mem_cons] at hev
          rcases hev with h | h
          · rw [h]; rfl
          · exact h3 ev h
      · intro f hf
        obtain ⟨h1, tr', d, htr, hfree, hout, hdt, hft, hcontent⟩ := ihf f hf
        refine ⟨h1, TraceEv.act ⟨tick, se.1, se.2.1, se.2.2, .passed⟩ :: tr', d, ?_, ?_,
          hout, hdt, hft, hcontent⟩
        · rw [List.cons_append, htr]
        · intro ev hev
          rw [List.mem_cons] at hev
          rcases hev with h | h
          · rw [h]; rfl
          · exact hfree ev h
    | assertFailed f =>
      obtain ⟨checks, hact, hst, hrc⟩ := execute_action_failed A st se.2.1.action_type tick f st' hex
      obtain ⟨hftick, c, hc, hpos, hexp, hactual, hbm⟩ := run_checks_failed A st.1 tick checks f hrc
      refine ⟨?_, ?_, ?_, ?_, ?_, ?_⟩ <;> simp only [dispatch_all, hex]
      · rw [add_assertion_total]
      · rw [add_assertion_assertions]
        rfl
      · intro ev hev
        rw [List.mem_cons] at hev
        rcases hev with h | h
        · exact ⟨_, h, rfl⟩
        · simp at h
      · exact ⟨sched_plan tick rest, rfl⟩
      · intro hab
        cases hab
      · intro f' hf'
        have hff : f = f' := by injection hf'
        subst hff
        refine ⟨add_assertion_success_F res f, [],
          ⟨tick, se.1, se.2.1, se.2.2, .failed f⟩, rfl, ?_, rfl, rfl, hftick,
          checks, hact, c, hc, hpos, hexp, A.get_block st.1 c.pos, hactual, hbm⟩
        intro ev hev
        simp at hev

theorem initseg_glue {α : Type} (a : List α) (c : α) {l1 l2 : List α}
    (h : IsInitSeg l1 l2) : IsInitSeg (a ++ c :: l1) (a ++ c :: l2) := by
  obtain ⟨s, hs⟩ := h
  exact ⟨s, by rw [List.append_assoc, List.cons_append, hs]⟩

theorem tick_loop_spec {S : Type} (A : Adapter S) (agg : TimelineAggregate) :
    ∀ (fuel t : Nat) (st : S × Bool) (res : TestResult),
      ((tick_loop A agg st res t fuel).result.assertions =
        res.assertions ++ (tick_loop A agg st res t fuel).trace.filterMap trace_assertion) ∧
      IsInitSeg (plan_of (tick_loop A agg st res t fuel).trace)
        (planned_buckets (fun k => (hm_get agg.timeline k).getD []) t fuel) ∧
      ((∀ ev ∈ (tick_loop A agg st res t fuel).trace, ev_is_failed ev = false) →
        (tick_loop A agg st res t fuel).result.success = res.success ∧
        (tick_loop A agg st res t fuel).result.total_ticks = agg.max_tick ∧
        plan_of (tick_loop A agg st res t fuel).trace =
          planned_buckets (fun k => (hm_get agg.timeline k).getD []) t fuel ∧
        adv_count (tick_loop A agg st res t fuel).trace = fuel) ∧
      (¬ (∀ ev ∈ (tick_loop A agg st res t fuel).trace, ev_is_failed ev = false) →
        ∃ tr' d f, (tick_loop A agg st res t fuel).trace = tr' ++ [TraceEv.act d] ∧
          (∀ ev ∈ tr', ev_is_failed ev = false) ∧
          d.outcome = DispatchKind.failed f ∧
          f.tick = d.tick ∧
          d.tick = t + adv_count (tick_loop A agg st res t fuel).trace ∧
          (tick_loop A agg st res t fuel).result.success = false ∧
          (tick_loop A agg st res t fuel).result.total_ticks = d.tick ∧
          (∀ ev ∈ (tick_loop A agg st res t fuel).trace, ∀ d',
            ev = TraceEv.act d' → d'.tick ≤ d.tick) ∧
          ∃ checks, d.entry.action_type = ActionType.Assert checks ∧
            ∃ c ∈ checks, f.position = c.pos ∧ f.expected = InfoType.block c.is_ ∧
              ∃ b, f.actual = InfoType.block b ∧ block_matches b c.is_ = false) := by
  intro fuel
  induction fuel with
  | zero =>
    intro t st res
    refine ⟨by simp [tick_loop], ⟨[], rfl⟩, ?_, ?_⟩
    · intro _
      exact ⟨rfl, rfl, rfl, rfl⟩
    · intro hc
      exact absurd (by intro ev hev; simp [tick_loop] at hev) hc
  | succ fuel ihf =>
    intro t st res
    obtain ⟨dt, da, de, dp, dn, df⟩ :=
      dispatch_all_spec A t ((hm_get agg.timeline t).getD []) st res
    have hadvD : adv_count (dispatch_all A t st res ((hm_get agg.timeline t).getD [])).trace = 0 := by
      apply adv_count_all_act
      intro ev hev
      obtain ⟨d', hd', _⟩ := de ev hev
      exact ⟨d', hd'⟩
    cases hab : (dispatch_all A t st res ((hm_get agg.timeline t).getD [])).aborted with
    | some f0 =>
      have hred : tick_loop A agg st res t (fuel + 1) =
          ⟨(dispatch_all A t st res ((hm_get agg.timeline t).getD [])).state,
            { (dispatch_all A t st res ((hm_get agg.timeline t).getD [])).result with
                success := false, total_ticks := t },
            (dispatch_all A t st res ((hm_get agg.timeline t).getD [])).trace⟩ := by
        simp only [tick_loop, hab]
      obtain ⟨hsucc, tr', d, htr, hfree, hout, hdt, hft, hcontent⟩ := df f0 hab
      have hdfail : ev_is_failed (TraceEv.act d) = true := by
        simp [ev_is_failed, hout]
      have hmemd : TraceEv.act d ∈
          (dispatch_all A t st res ((hm_get agg.timeline t).getD [])).trace := by
        rw [htr]
        exact List.mem_append.mpr (Or.inr (List.mem_singleton.mpr rfl))
      rw [hred]
      refine ⟨?_, ?_, ?_, ?_⟩
      · exact da
      · exact initseg_append_right _ dp
      · intro hful
        exact absurd hdfail (by simpa using hful (TraceEv.act d) hmemd)
      · intro _
        refine ⟨tr', d, f0, htr, hfree, hout, by rw [hft, hdt], ?_, rfl, by rw [hdt], ?_, hcontent⟩
        · have h0 : adv_count (tr' ++ [TraceEv.act d]) = 0 := by
            rw [← htr]
            exact hadvD
          show d.tick = t +
            adv_count (dispatch_all A t st res ((hm_get agg.timeline t).getD [])).trace
          rw [htr, h0, hdt]
          omega
        · intro ev hev d' hev'
          obtain ⟨d'', hd'', ht''⟩ := de ev hev
          rw [hev'] at hd''
          have : d' = d'' := by injection hd''
          rw [this, ht'', hdt]
    | none =>
      have hred : tick_loop A agg st res t (fuel + 1) =
          ⟨(tick_loop A agg
              (A.do_tick (dispatch_all A t st res ((hm_get agg.timeline t).getD [])).state.1,
                (dispatch_all A t st res ((hm_get agg.timeline t).getD [])).state.2)
              (dispatch_all A t st res ((hm_get agg.timeline t).getD [])).result (t + 1) fuel).state,
            (tick_loop A agg
              (A.do_tick (dispatch_all A t st res ((hm_get agg.timeline t).getD [])).state.1,
                (dispatch_all A t st res ((hm_get agg.timeline t).getD [])).state.2)
              (dispatch_all A t st res ((hm_get agg.timeline t).getD [])).result (t + 1) fuel).result,
            (dispatch_all A t st res ((hm_get agg.timeline t).getD [])).trace ++
              TraceEv.tick_advance ::
                (tick_loop A agg
                  (A.do_tick (dispatch_all A t st res ((hm_get agg.timeline t).getD [])).state.1,
                    (dispatch_all A t st res ((hm_get agg.timeline t).getD [])).state.2)
                  (dispatch_all A t st res ((hm_get agg.timeline t).getD [])).result (t + 1) fuel).trace⟩ := by
        simp only [tick_loop, hab]
      obtain ⟨dn1, dn2, dn3⟩ := dn hab
      obtain ⟨ia, ip, isucc, ifail⟩ := ihf (t + 1)
        (A.do_tick (dispatch_all A t st res ((hm_get agg.timeline t).getD [])).state.1,
          (dispatch_all A t st res ((hm_get agg.timeline t).getD [])).state.2)
        (dispatch_all A t st res ((hm_get agg.timeline t).getD [])).result
      rw [hred]
      refine ⟨?_, ?_, ?_, ?_⟩
      · rw [List.filterMap_append, List.filterMap_cons]
        simp only [trace_assertion]
        rw [ia, da, List.append_assoc]
      · rw [plan_of_append, plan_of_cons]
        show IsInitSeg (_ ++ PlanEv.advance :: _) _
        have hpl : planned_buckets (fun k => (hm_get agg.timeline k).getD []) t (fuel + 1) =
            sched_plan t ((hm_get agg.timeline t).getD []) ++
              PlanEv.advance :: planned_buckets (fun k => (hm_get agg.timeline k).getD []) (t + 1) fuel := rfl
        rw [hpl, dn2]
        exact initseg_glue _ _ ip
      · intro hful
        have hfulR : ∀ ev ∈ (tick_loop A agg
            (A.do_tick (dispatch_all A t st res ((hm_get agg.timeline t).getD [])).state.1,
              (dispatch_all A t st res ((hm_get agg.timeline t).getD [])).state.2)
            (dispatch_all A t st res ((hm_get agg.timeline t).getD [])).result (t + 1) fuel).trace,
            ev_is_failed ev = false := by
          intro ev hev
          exact hful ev (List.mem_append.mpr (Or.inr (List.mem_cons_of_mem _ hev)))
        obtain ⟨is1, is2, is3, is4⟩ := isucc hfulR
        refine ⟨by rw [is1, dn1], is2, ?_, ?_⟩
        · rw [plan_of_append, plan_of_cons]
          have hpl : planned_buckets (fun k => (hm_get agg.timeline k).getD []) t (fuel + 1) =
              sched_plan t ((hm_get agg.timeline t).getD []) ++
                PlanEv.advance :: planned_buckets (fun k => (hm_get agg.timeline k).getD []) (t + 1) fuel := rfl
          rw [hpl, dn2, is3]
          rfl
        · rw [adv_count_append, adv_count_cons_adv, hadvD, is4]
          omega
      · intro hc
        have hcR : ¬ (∀ ev ∈ (tick_loop A agg
            (A.do_tick (dispatch_all A t st res ((hm_get agg.timeline t).getD [])).state.1,
              (dispatch_all A t st res ((hm_get agg.timeline t).getD [])).state.2)
            (dispatch_all A t st res ((hm_get agg.timeline t).getD [])).result (t + 1) fuel).trace,
            ev_is_failed ev = false) := by
          intro hR
          apply hc
          intro ev hev
          rw [List.mem_append] at hev
          rcases hev with h | h
          · exact dn3 ev h
          · rw [List.mem_cons] at h
            rcases h with h | h
            · rw [h]; rfl
            · exact hR ev h
        obtain ⟨tr'', d, f, htr, hfree, hout, hft, hdtick, hsuccR, htotR, hbound, hcontent⟩ :=
          ifail hcR
        refine ⟨(dispatch_all A t st res ((hm_get agg.timeline t).getD [])).trace ++
          TraceEv.tick_advance :: tr'', d, f, ?_, ?_, hout, hft, ?_, hsuccR, htotR, ?_, hcontent⟩
        · rw [htr, List.append_assoc, List.cons_append]
        · intro ev hev
          rw [List.mem_append] at hev
          rcases hev with h | h
          · exact dn3 ev h
          · rw [List.mem_cons] at h
            rcases h with h | h
            · rw [h]; rfl
            · exact hfree ev h
        · rw [htr] at hdtick
          rw [htr, adv_count_append, adv_count_cons_adv, hadvD, hdtick]
          omega
        · intro ev hev d' hev'
          rw [List.mem_append] at hev
          rcases hev with h | h
          · obtain ⟨d'', hd'', ht''⟩ := de ev h
            rw [hev'] at hd''
            have hde : d' = d'' := by injection hd''
            rw [hde, ht'', hdtick]
            omega
          · rw [List.mem_cons] at h
            rcases h with h | h
            · rw [h] at hev'
              cases hev'
            · exact hbound ev h d' hev'

/-! ### Bridging the run to the declarative plan -/

theorem planned_buckets_congr (b1 b2 : Nat → List SchedEntry) (h : ∀ t, b1 t = b2 t) :
    ∀ (fuel t : Nat), planned_buckets b1 t fuel = planned_buckets b2 t fuel := by
  intro fuel
  induction fuel with
  | zero => intro t; rfl
  | succ fuel ih =>
    intro t
    show sched_plan t (b1 t) ++ PlanEv.advance :: planned_buckets b1 (t + 1) fuel = _
    rw [h t, ih]
    rfl

theorem singleton_agg_max (spec : TestSpec) :
    (TimelineAggregate.from_tests [(spec, ((0 : Int), (0 : Int), (0 : Int)))]).max_tick =
      spec.max_tick := by
  rw [from_tests_max_all]
  unfold all_ticks TestSpec.max_tick
  simp only [List.flatMap_cons, List.flatMap_nil, List.append_nil]

theorem run_planned (spec : TestSpec) :
    planned_buckets
      (fun k => (hm_get
        (TimelineAggregate.from_tests [(spec, ((0 : Int), (0 : Int), (0 : Int)))]).timeline k).getD [])
      0 ((TimelineAggregate.from_tests [(spec, ((0 : Int), (0 : Int), (0 : Int)))]).max_tick + 1) =
    planned_one spec := by
  rw [singleton_agg_max]
  unfold planned_one
  exact planned_buckets_congr _ _ (fun t => from_tests_bucket _ t) _ 0

/-- Bool test for a `Failure` record. -/
def is_failure_result : AssertionResult → Bool
  | .Failure _ => true
  | .Success _ => false

theorem filterMap_no_failure (tr : List TraceEv)
    (h : ∀ ev ∈ tr, ev_is_failed ev = false) :
    (tr.filterMap trace_assertion).filter is_failure_result = [] := by
  induction tr with
  | nil => rfl
  | cons hd tl ih =>
    have hhd := h hd (List.mem_cons_self hd tl)
    have htl := ih (fun ev hev => h ev (List.mem_cons_of_mem hd hev))
    rw [List.filterMap_cons]
    cases hd with
    | tick_advance =>
      simpa [trace_assertion] using htl
    | act d =>
      cases hod : d.outcome with
      | action =>
        simp only [trace_assertion, hod]
        exact htl
      | passed =>
        simp only [trace_assertion, hod]
        rw [List.filter_cons]
        simpa [is_failure_result] using htl
      | failed f =>
        exfalso
        rw [show ev_is_failed (TraceEv.act d) = true by simp [ev_is_failed, hod]] at hhd
        cases hhd

/-- C1: for every adapter and spec, the run's assertion records are
exactly one per dispatched assertion action (`Success(tick)` for a fully
matching `Assert`, never one per check; `Failure` for a failing one), the
dispatched/advance sequence is an initial segment of the planned one, and
either the run succeeds — no failing check, all ticks 0..max_tick
dispatched and advanced — or it fails: the trace ends at the failing
assertion (nothing later at that tick, no later tick, no further
`do_tick`), `success` is false, `total_ticks` is pinned to the failing
dispatch's tick, the single `Failure` record is last and carries that
tick and the failing check's position with mismatching expected/actual
blocks. -/
theorem run_test_assert_fail_fast (S : Type) (A : Adapter S) (spec : TestSpec) :
    (run_test A spec).result.assertions =
      (run_test A spec).trace.filterMap trace_assertion ∧
    IsInitSeg (plan_of (run_test A spec).trace) (planned_one spec) ∧
    (((run_test A spec).result.success = true ∧
        (∀ ev ∈ (run_test A spec).trace, ev_is_failed ev = false) ∧
        (run_test A spec).result.total_ticks = spec.max_tick ∧
        adv_count (run_test A spec).trace = spec.max_tick + 1 ∧
        plan_of (run_test A spec).trace = planned_one spec) ∨
      ((run_test A spec).result.success = false ∧
        ∃ tr' d f, (run_test A spec).trace = tr' ++ [TraceEv.act d] ∧
          (∀ ev ∈ tr', ev_is_failed ev = false) ∧
          d.outcome = DispatchKind.failed f ∧
          f.tick = d.tick ∧
          (run_test A spec).result.total_ticks = d.tick ∧
          adv_count (run_test A spec).trace = d.tick ∧
          (run_test A spec).result.assertions.getLast? =
            some (AssertionResult.Failure f) ∧
          ((run_test A spec).result.assertions.filter is_failure_result).length = 1 ∧
          (∀ ev ∈ (run_test A spec).trace, ∀ d',
            ev = TraceEv.act d' → d'.tick ≤ d.tick) ∧
          ∃ checks, d.entry.action_type = ActionType.Assert checks ∧
            ∃ c ∈ checks, f.position = c.pos ∧ f.expected = InfoType.block c.is_ ∧
              ∃ b, f.actual = InfoType.block b ∧ block_matches b c.is_ = false)) := by
  have e1 : (run_test A spec).result =
      (tick_loop A (TimelineAggregate.from_tests [(spec, ((0 : Int), (0 : Int), (0 : Int)))])
        (initial_state A spec)
        ({ TestResult.new spec.name with minecraft_ids := spec.minecraft_ids }) 0
        ((TimelineAggregate.from_tests [(spec, ((0 : Int), (0 : Int), (0 : Int)))]).max_tick + 1)).result := rfl
  have e2 : (run_test A spec).trace =
      (tick_loop A (TimelineAggregate.from_tests [(spec, ((0 : Int), (0 : Int), (0 : Int)))])
        (initial_state A spec)
        ({ TestResult.new spec.name with minecraft_ids := spec.minecraft_ids }) 0
        ((TimelineAggregate.from_tests [(spec, ((0 : Int), (0 : Int), (0 : Int)))]).max_tick + 1)).trace := rfl
  rw [e1, e2]
  obtain ⟨ma, mp, msucc, mfail⟩ :=
    tick_loop_spec A (TimelineAggregate.from_tests [(spec, ((0 : Int), (0 : Int), (0 : Int)))])
      ((TimelineAggregate.from_tests [(spec, ((0 : Int), (0 : Int), (0 : Int)))]).max_tick + 1) 0
      (initial_state A spec)
      ({ TestResult.new spec.name with minecraft_ids := spec.minecraft_ids })
  refine ⟨by simpa using ma, ?_, ?_⟩
  · rw [← run_planned spec]
    exact mp
  · by_cases hful : ∀ ev ∈ (tick_loop A
        (TimelineAggregate.from_tests [(spec, ((0 : Int), (0 : Int), (0 : Int)))])
        (initial_state A spec)
        ({ TestResult.new spec.name with minecraft_ids := spec.minecraft_ids }) 0
        ((TimelineAggregate.from_tests [(spec, ((0 : Int), (0 : Int), (0 : Int)))]).max_tick + 1)).trace,
        ev_is_failed ev = false
    · left
      obtain ⟨s1, s2, s3, s4⟩ := msucc hful
      refine ⟨by rw [s1]; rfl, hful, ?_, ?_, ?_⟩
      · rw [s2, singleton_agg_max]
      · rw [s4, singleton_agg_max]
      · rw [s3, run_planned]
    · right
      obtain ⟨tr', d, f, htr, hfree, hout, hft, hdtick, hsucc, htot, hbound, hcontent⟩ :=
        mfail hful
      refine ⟨hsucc, tr', d, f, htr, hfree, hout, hft, htot, by omega, ?_, ?_, hbound, hcontent⟩
      · rw [ma, htr]
        show (([] : List AssertionResult) ++ _).getLast? = _
        rw [List.nil_append, List.filterMap_append]
        have hlast : List.filterMap trace_assertion [TraceEv.act d] =
            [AssertionResult.Failure f] := by
          simp [trace_assertion, hout]
        rw [hlast]
        exact List.getLast?_concat _
      · rw [ma, htr]
        show ((([] : List AssertionResult) ++ _).filter is_failure_result).length = 1
        rw [List.nil_append, List.filterMap_append, List.filter_append,
          filterMap_no_failure tr' hfree]
        have hlast : List.filterMap trace_assertion [TraceEv.act d] =
            [AssertionResult.Failure f] := by
          simp [trace_assertion, hout]
        rw [hlast]
        rfl

/-- C4: within one `run_test` the executed dispatch/advance sequence is an
initial segment of the planned one — ticks processed strictly in
increasing order from 0 through `max_tick`, actions within a tick in the
schedule order (input test order then timeline-entry order, never
re-ordered), and exactly one `do_tick` advance after each tick's actions
— and on a successful run it is the whole planned sequence. -/
theorem run_test_dispatch_order (S : Type) (A : Adapter S) (spec : TestSpec) :
    IsInitSeg (plan_of (run_test A spec).trace) (planned_one spec) ∧
    ((run_test A spec).result.success = true →
      plan_of (run_test A spec).trace = planned_one spec) := by
  have e1 : (run_test A spec).result =
      (tick_loop A (TimelineAggregate.from_tests [(spec, ((0 : Int), (0 : Int), (0 : Int)))])
        (initial_state A spec)
        ({ TestResult.new spec.name with minecraft_ids := spec.minecraft_ids }) 0
        ((TimelineAggregate.from_tests [(spec, ((0 : Int), (0 : Int), (0 : Int)))]).max_tick + 1)).result := rfl
  have e2 : (run_test A spec).trace =
      (tick_loop A (TimelineAggregate.from_tests [(spec, ((0 : Int), (0 : Int), (0 : Int)))])
        (initial_state A spec)
        ({ TestResult.new spec.name with minecraft_ids := spec.minecraft_ids }) 0
        ((TimelineAggregate.from_tests [(spec, ((0 : Int), (0 : Int), (0 : Int)))]).max_tick + 1)).trace := rfl
  rw [e1, e2]
  obtain ⟨ma, mp, msucc, mfail⟩ :=
    tick_loop_spec A (TimelineAggregate.from_tests [(spec, ((0 : Int), (0 : Int), (0 : Int)))])
      ((TimelineAggregate.from_tests [(spec, ((0 : Int), (0 : Int), (0 : Int)))]).max_tick + 1) 0
      (initial_state A spec)
      ({ TestResult.new spec.name with minecraft_ids := spec.minecraft_ids })
  constructor
  · rw [← run_planned spec]
    exact mp
  · intro hs
    by_cases hful : ∀ ev ∈ (tick_loop A
        (TimelineAggregate.from_tests [(spec, ((0 : Int), (0 : Int), (0 : Int)))])
        (initial_state A spec)
        ({ TestResult.new spec.name with minecraft_ids := spec.minecraft_ids }) 0
        ((TimelineAggregate.from_tests [(spec, ((0 : Int), (0 : Int), (0 : Int)))]).max_tick + 1)).trace,
        ev_is_failed ev = false
    · obtain ⟨_, _, s3, _⟩ := msucc hful
      rw [s3, run_planned]
    · obtain ⟨_, _, _, _, _, _, _, _, hsucc, _⟩ := mfail hful
      rw [hsucc] at hs
      cases hs

theorem length_filter_add_compl {α : Type} (l : List α) (p : α → Bool) :
    (l.filter p).length + (l.filter (fun a => !(p a))).length = l.length := by
  induction l with
  | nil => rfl
  | cons hd tl ih =>
    rw [List.filter_cons, List.filter_cons]
    cases hp : p hd with
    | true => simp only [hp, Bool.not_true, if_pos rfl]; simp; omega
    | false => simp only [hp, Bool.not_false]; simp; omega

/-- C8: running a batch of specs runs each independently (each result is a
function of its own spec alone), returns exactly one result per spec in
input order, and the summary counts are the list length and the counts of
succeeding and failing runs. -/
theorem run_tests_summary_spec (S : Type) (A : Adapter S) (specs : List TestSpec) :
    (run_tests A specs).results = specs.map (fun sp => (run_test A sp).result) ∧
    (run_tests A specs).total_tests = specs.length ∧
    (run_tests A specs).passed_tests =
      (specs.filter (fun sp => (run_test A sp).result.success)).length ∧
    (run_tests A specs).failed_tests =
      (specs.filter (fun sp => !(run_test A sp).result.success)).length := by
  have hpass : (run_tests A specs).passed_tests =
      (specs.filter (fun sp => (run_test A sp).result.success)).length := by
    show (((specs.map (fun sp => (run_test A sp).result)).filter
      (fun r => r.success)).length) = _
    rw [List.filter_map, List.length_map]
    rfl
  refine ⟨rfl, by simp [run_tests, TestSummary.from_results], hpass, ?_⟩
  show (specs.map (fun sp => (run_test A sp).result)).length -
      ((specs.map (fun sp => (run_test A sp).result)).filter (fun r => r.success)).length = _
  have h1 : ((specs.map (fun sp => (run_test A sp).result)).filter
      (fun r => r.success)).length =
      (specs.filter (fun sp => (run_test A sp).result.success)).length := hpass
  rw [List.length_map, h1]
  have h2 := length_filter_add_compl specs (fun sp => (run_test A sp).result.success)
  omega

/-! ## Spec validation (`TestSpec::validate` in `src/test_spec.rs`) -/

/-- Rust `TestSpec::MAX_WIDTH`. -/
def MAX_WIDTH : Int := 15

/-- Rust `TestSpec::MAX_HEIGHT`. -/
def MAX_HEIGHT : Int := 384

/-- Rust `TestSpec::MAX_DEPTH`. -/
def MAX_DEPTH : Int := 15

/-- The positions one timeline action references, exactly as the match in
`validate` walks them: `Place` its pos, `PlaceEach` every placement pos,
`Fill` both corners, `Remove` its pos, `Assert` every check pos,
`UseItemOn` its pos; `SetSlot` and `SelectHotbar` none. -/
def action_positions : ActionType → List Pos
  | .Place pos _ => [pos]
  | .PlaceEach blocks => blocks.map (fun b => b.pos)
  | .Fill region _ => [region.1, region.2]
  | .Remove pos => [pos]
  | .Assert checks => checks.map (fun c => c.pos)
  | .UseItemOn pos _ _ => [pos]
  | .SetSlot _ _ _ => []
  | .SelectHotbar _ => []

/-- Rust `TestSpec::validate_position`. -/
def validate_position (name : String) (pos : Pos) (region : Pos × Pos) :
    Except String Unit :=
  if pos.1 < region.1.1 ∨ pos.1 > region.2.1 ∨
     pos.2.1 < region.1.2.1 ∨ pos.2.1 > region.2.2.1 ∨
     pos.2.2 < region.1.2.2 ∨ pos.2.2 > region.2.2.2 then
    Except.error ("Test " ++ name ++ ": Position outside cleanup region")
  else
    Except.ok ()

/-- Position validation over a list, first error wins. -/
def validate_positions (name : String) (region : Pos × Pos) :
    List Pos → Except String Unit
  | [] => Except.ok ()
  | p :: rest =>
    match validate_position name p region with
    | Except.ok _ => validate_positions name region rest
    | Except.error e => Except.error e

/-- The timeline walk of `validate`. -/
def validate_timeline (name : String) (region : Pos × Pos) :
    List TimelineEntry → Except String Unit
  | [] => Except.ok ()
  | e :: rest =>
    match validate_positions name region (action_positions e.action_type) with
    | Except.ok _ => validate_timeline name region rest
    | Except.error msg => Except.error msg

/-- Rust `TestSpec::validate`. -/
def TestSpec.validate (spec : TestSpec) : Except String Unit :=
  match spec.setup with
  | none => Except.error ("Test " ++ spec.name ++ " missing required setup section")
  | some setup =>
    match setup.cleanup with
    | none => Except.error ("Test " ++ spec.name ++ " missing cleanup section")
    | some cl =>
      if cl.region.1.1 > cl.region.2.1 ∨ cl.region.1.2.1 > cl.region.2.2.1 ∨
         cl.region.1.2.2 > cl.region.2.2.2 then
        Except.error ("Test " ++ spec.name ++
          ": Invalid cleanup region - min coordinates must be <= max coordinates")
      else if cl.region.2.1 - cl.region.1.1 + 1 > MAX_WIDTH then
        Except.error ("Test " ++ spec.name ++ ": Cleanup region width exceeds maximum")
      else if cl.region.2.2.1 - cl.region.1.2.1 + 1 > MAX_HEIGHT then
        Except.error ("Test " ++ spec.name ++ ": Cleanup region height exceeds maximum")
      else if cl.region.2.2.2 - cl.region.1.2.2 + 1 > MAX_DEPTH then
        Except.error ("Test " ++ spec.name ++ ": Cleanup region depth exceeds maximum")
      else
        validate_timeline spec.name cl.region spec.timeline

/-- Modelled from the spec: a position lies inside the cleanup region
(inclusive on every axis). -/
def pos_in_region (p : Pos) (region : Pos × Pos) : Prop :=
  region.1.1 ≤ p.1 ∧ p.1 ≤ region.2.1 ∧
  region.1.2.1 ≤ p.2.1 ∧ p.2.1 ≤ region.2.2.1 ∧
  region.1.2.2 ≤ p.2.2 ∧ p.2.2 ≤ region.2.2.2

theorem validate_position_ok (name : String) (p : Pos) (region : Pos × Pos) :
    validate_position name p region = Except.ok () ↔ pos_in_region p region := by
  unfold validate_position pos_in_region
  split
  · rename_i h
    constructor
    · intro hc
      cases hc
    · intro hr
      obtain ⟨r1, r2, r3, r4, r5, r6⟩ := hr
      rcases h with h | h | h | h | h | h <;> omega
  · rename_i h
    push_neg at h
    constructor
    · intro _
      obtain ⟨h1, h2, h3, h4, h5, h6⟩ := h
      exact ⟨h1, h2, h3, h4, h5, h6⟩
    · intro _
      rfl

theorem validate_positions_ok (name : String) (region : Pos × Pos) :
    ∀ l : List Pos, validate_positions name region l = Except.ok () ↔
      ∀ p ∈ l, pos_in_region p region := by
  intro l
  induction l with
  | nil => simp [validate_positions]
  | cons p rest ih =>
    simp only [validate_positions]
    cases hv : validate_position name p region with
    | ok u =>
      cases u
      have hp : pos_in_region p region := (validate_position_ok name p region).mp hv
      rw [ih]
      constructor
      · intro h q hq
        rw [List.mem_cons] at hq
        rcases hq with hq | hq
        · rw [hq]
          exact hp
        · exact h q hq
      · intro h q hq
        exact h q (List.mem_cons_of_mem p hq)
    | error e =>
      have hp : ¬ pos_in_region p region := by
        intro hr
        rw [(validate_position_ok name p region).mpr hr] at hv
        cases hv
      constructor
      · intro h
        cases h
      · intro h
        exact absurd (h p (List.mem_cons_self p rest)) hp

theorem validate_timeline_ok (name : String) (region : Pos × Pos) :
    ∀ l : List TimelineEntry, validate_timeline name region l = Except.ok () ↔
      ∀ e ∈ l, ∀ p ∈ action_positions e.action_type, pos_in_region p region := by
  intro l
  induction l with
  | nil => simp [validate_timeline]
  | cons e rest ih =>
    simp only [validate_timeline]
    cases hv : validate_positions name region (action_positions e.action_type) with
    | ok u =>
      cases u
      have hp := (validate_positions_ok name region (action_positions e.action_type)).mp hv
      rw [ih]
      constructor
      · intro h e' he'
        rw [List.mem_cons] at he'
        rcases he' with he' | he'
        · rw [he']
          exact hp
        · exact h e' he'
      · intro h e' he'
        exact h e' (List.mem_cons_of_mem e he')
    | error msg =>
      have hp : ¬ ∀ p ∈ action_positions e.action_type, pos_in_region p region := by
        intro hr
        rw [(validate_positions_ok name region (action_positions e.action_type)).mpr hr] at hv
        cases hv
      constructor
      · intro h
        cases h
      · intro h
        exact absurd (h e (List.mem_cons_self e rest)) hp

/-- C7: `validate` returns Ok exactly when the spec has a setup section
with a cleanup region whose corners satisfy min ≤ max on every axis,
whose dimensions (max − min + 1 per axis) are at most 15 × 384 × 15, and
every position referenced by any timeline action lies inside that
region; in every other case it returns an error. -/
theorem validate_ok_iff (spec : TestSpec) :
    spec.validate = Except.ok () ↔
      ∃ su cl, spec.setup = some su ∧ su.cleanup = some cl ∧
        (cl.region.1.1 ≤ cl.region.2.1 ∧ cl.region.1.2.1 ≤ cl.region.2.2.1 ∧
          cl.region.1.2.2 ≤ cl.region.2.2.2) ∧
        (cl.region.2.1 - cl.region.1.1 + 1 ≤ 15 ∧
          cl.region.2.2.1 - cl.region.1.2.1 + 1 ≤ 384 ∧
          cl.region.2.2.2 - cl.region.1.2.2 + 1 ≤ 15) ∧
        (∀ e ∈ spec.timeline, ∀ p ∈ action_positions e.action_type,
          pos_in_region p cl.region) := by
  cases hsu : spec.setup with
  | none =>
    simp only [TestSpec.validate, hsu]
    constructor
    · intro h
      cases h
    · rintro ⟨su, cl, hsu', _⟩
      cases hsu'
  | some su =>
    cases hcl : su.cleanup with
    | none =>
      simp only [TestSpec.validate, hsu, hcl]
      constructor
      · intro h
        cases h
      · rintro ⟨su', cl, hsu', hcl', _⟩
        cases hsu'
        rw [hcl] at hcl'
        cases hcl'
    | some cl =>
      have hW : MAX_WIDTH = 15 := rfl
      have hH : MAX_HEIGHT = 384 := rfl
      have hD : MAX_DEPTH = 15 := rfl
      simp only [TestSpec.validate, hsu, hcl]
      split_ifs with h1 h2 h3 h4
      · constructor
        · intro h
          cases h
        · rintro ⟨su', cl', hsu', hcl', hmin, _⟩
          cases hsu'
          rw [hcl] at hcl'
          cases hcl'
          obtain ⟨m1, m2, m3⟩ := hmin
          rcases h1 with h | h | h <;> omega
      · constructor
        · intro h
          cases h
        · rintro ⟨su', cl', hsu', hcl', _, hdims, _⟩
          cases hsu'
          rw [hcl] at hcl'
          cases hcl'
          rw [hW] at h2
          obtain ⟨d1, _, _⟩ := hdims
          omega
      · constructor
        · intro h
          cases h
        · rintro ⟨su', cl', hsu', hcl', _, hdims, _⟩
          cases hsu'
          rw [hcl] at hcl'
          cases hcl'
          rw [hH] at h3
          obtain ⟨_, d2, _⟩ := hdims
          omega
      · constructor
        · intro h
          cases h
        · rintro ⟨su', cl', hsu', hcl', _, hdims, _⟩
          cases hsu'
          rw [hcl] at hcl'
          cases hcl'
          rw [hD] at h4
          obtain ⟨_, _, d3⟩ := hdims
          omega
      · rw [validate_timeline_ok]
        constructor
        · intro h
          push_neg at h1
          rw [hW] at h2
          rw [hH] at h3
          rw [hD] at h4
          refine ⟨su, cl, rfl, hcl, ⟨h1.1, h1.2.1, h1.2.2⟩,
            ⟨by omega, by omega, by omega⟩, h⟩
        · rintro ⟨su', cl', hsu', hcl', _, _, hpos⟩
          cases hsu'
          rw [hcl] at hcl'
          cases hcl'
          exact hpos

/-- C10: `Item::new` substitutes the empty item (id "minecraft:air",
count 0) for any id string beginning with "empty", so a `UseItemOn`
action with such an inline item writes air with count 0 into hotbar slot
1 and selects it before the use; `Item::with_count` performs no such
substitution, so a `SetSlot` action stores the literal id with the given
count — the two player actions treat the same item string differently. -/
theorem item_empty_substitution (S : Type) (A : Adapter S) (st : S × Bool)
    (pos : Pos) (face : BlockFace) (id : String) (slot : PlayerSlot)
    (count : Nat) (tick : Nat) :
    (str_starts_with id "empty" = true →
      Item.new id = { id := "minecraft:air", count := 0 }) ∧
    Item.with_count id count = { id := id, count := count } ∧
    (str_starts_with id "empty" = true →
      execute_action A st (ActionType.UseItemOn pos face (some id)) tick =
        (ActionOutcome.action,
          (A.use_item_on
            (A.select_hotbar
              (A.set_slot (ensure_player A st).1 PlayerSlot.Hotbar1
                (some { id := "minecraft:air", count := 0 })) 1)
            pos face,
          (ensure_player A st).2))) ∧
    execute_action A st (ActionType.SetSlot slot (some id) count) tick =
      (ActionOutcome.action,
        (A.set_slot (ensure_player A st).1 slot (some { id := id, count := count }),
        (ensure_player A st).2)) := by
  refine ⟨?_, rfl, ?_, rfl⟩
  · intro h
    simp [Item.new, h, Item.empty]
  · intro h
    simp [execute_action, Item.new, h, Item.empty]
